import Mathlib

/-!
# keeper: the reconciliation engine

A shallow embedding of `misc.go`, `repofiles.go`, `commands.go` and of
`executeTemplate` of `templates.go`, and the properties of the engine.

## The model

* A Go `string` is a list of characters (`GoString`), and so is the content of a
  file: texts are taken to be valid UTF-8. The limit of the line scanner is
  counted in bytes (`utf8Len`); the sizes and chunks of `equalContent` are counted
  in characters, which gives the same verdict.
* `os.FileMode` is a `uint32`, embedded as a `Nat`; the bit operations of the
  source are the bit operations of `Nat` (`&^` is `andNot`). No operation of the
  source leaves 32 bits. An `int` has 64 bits, a `uid_t` 32.
* The file system is a table of locations; a system call walks the path it is
  given name by name, through directories and symlinks, as the kernel does. So a
  file that is reached through a symlink to its directory is the same file under
  both paths, a path below a name that has been removed is not found, and a name
  on the way that is not a directory gives ENOTDIR. `Lstat`, `Readlink`, `Remove`,
  `Mkdir`, `Symlink` and `Rename` do not follow a symlink at the last name,
  `Stat`, `Open`, `Chmod` and `Chown` do. Hard links and mount points are not
  modelled.
* The process is privileged; `chown` sets the ids and clears setuid and setgid as
  Linux does. Faults of the device and concurrent changes are not part of the
  state.
* The YAML decoder, the identity database and the template engine are parameters
  (`World`); so is the list of paths that `walk(BASEDIR)` delivers to `syncRepo`.
* A Go map (`StringSet`) is the list of its keys, each once. The order in which a
  `range` delivers the keys is chosen by the run time: it is a parameter of the
  run (`World.rangeOrder`), and the properties hold for every order.
* A function of the source that returns an `error` after it has changed the file
  system returns the file system and the error.
-/

namespace Keeper

/-! ## Definitions -/

/-- A Go `string`. -/
abbrev GoString := List Char

/-- Equality of results is decidable. -/
instance instDecidableEqExcept {ε α : Type} [DecidableEq ε] [DecidableEq α] :
    DecidableEq (Except ε α)
  | Except.ok a, Except.ok b =>
    if h : a = b then isTrue (by rw [h]) else isFalse (fun h2 => h (Except.ok.inj h2))
  | Except.error a, Except.error b =>
    if h : a = b then isTrue (by rw [h]) else isFalse (fun h2 => h (Except.error.inj h2))
  | Except.ok _, Except.error _ => isFalse (fun h => Except.noConfusion h)
  | Except.error _, Except.ok _ => isFalse (fun h => Except.noConfusion h)

/-- The Go operator `a &^ b` (bit clear). -/
def andNot (a b : Nat) : Nat := a ^^^ (a &&& b)

/-! ### `os.FileMode` -/

def ModeDir : Nat := 2 ^ 31
def ModeAppend : Nat := 2 ^ 30
def ModeExclusive : Nat := 2 ^ 29
def ModeTemporary : Nat := 2 ^ 28
def ModeSymlink : Nat := 2 ^ 27
def ModeDevice : Nat := 2 ^ 26
def ModeNamedPipe : Nat := 2 ^ 25
def ModeSocket : Nat := 2 ^ 24
def ModeSetuid : Nat := 2 ^ 23
def ModeSetgid : Nat := 2 ^ 22
def ModeCharDevice : Nat := 2 ^ 21
def ModeSticky : Nat := 2 ^ 20
def ModeIrregular : Nat := 2 ^ 19

/-- The constant `os.ModeType`. -/
def ModeType : Nat :=
  ModeDir ||| ModeSymlink ||| ModeNamedPipe ||| ModeSocket ||| ModeDevice |||
    ModeCharDevice ||| ModeIrregular

/-- The constant `os.ModePerm` (0777). -/
def ModePerm : Nat := 0o777

/-- The method `FileMode.IsDir`. -/
def IsDir (m : Nat) : Bool := m &&& ModeDir != 0

/-- The method `FileMode.IsRegular`. -/
def IsRegular (m : Nat) : Bool := m &&& ModeType == 0

/-! ### misc.go -/

/-- The constant `StickyBit` of misc.go: `1 << (9 + iota)`, iota = 0. -/
def StickyBit : Nat := 1 <<< 9
/-- The constant `SetgidBit` of misc.go (iota = 1). -/
def SetgidBit : Nat := 1 <<< 10
/-- The constant `SetuidBit` of misc.go (iota = 2). -/
def SetuidBit : Nat := 1 <<< 11

/-- Converts given permissions to a FileMode structure (misc.go). -/
def permsToFileMode (perms : Nat) : Nat :=
  let mode := andNot perms 0o7000
  let mode := if perms &&& StickyBit > 0 then mode ||| ModeSticky else mode
  let mode := if perms &&& SetgidBit > 0 then mode ||| ModeSetgid else mode
  let mode := if perms &&& SetuidBit > 0 then mode ||| ModeSetuid else mode
  mode

/-- The re-encoding of section 4.2 of the specification: the low 9 bits of a mode,
with bit 9, 10, 11 set exactly when the mode carries sticky, setgid, setuid. -/
def reencode (mode : Nat) : Nat :=
  (mode &&& ModePerm)
    ||| (if mode &&& ModeSticky != 0 then StickyBit else 0)
    ||| (if mode &&& ModeSetgid != 0 then SetgidBit else 0)
    ||| (if mode &&& ModeSetuid != 0 then SetuidBit else 0)

/-! ### Library functions on strings and paths (`strings`, `path`, `path/filepath`) -/

/-- The function `strings.HasPrefix`. -/
def HasPrefix (s pre : GoString) : Bool := pre.isPrefixOf s

/-- The function `strings.HasSuffix`. -/
def HasSuffix (s suf : GoString) : Bool := suf.reverse.isPrefixOf s.reverse

/-- The function `strings.TrimPrefix`. -/
def TrimPrefix (s pre : GoString) : GoString :=
  if HasPrefix s pre then s.drop pre.length else s

/-- The function `strings.TrimSuffix`. -/
def TrimSuffix (s suf : GoString) : GoString :=
  if HasSuffix s suf then s.take (s.length - suf.length) else s

/-- The function `unicode.IsSpace`. -/
def IsSpace (c : Char) : Bool :=
  let n := c.toNat
  (9 ≤ n && n ≤ 13) || n == 0x20 || n == 0x85 || n == 0xA0 || n == 0x1680 ||
    (0x2000 ≤ n && n ≤ 0x200A) || n == 0x2028 || n == 0x2029 || n == 0x202F ||
    n == 0x205F || n == 0x3000

/-- The function `strings.TrimSpace`. -/
def TrimSpace (s : GoString) : GoString :=
  ((s.dropWhile IsSpace).reverse.dropWhile IsSpace).reverse

/-- The loop of `path.Ext`, on the reversed path: scan back from the end until a
slash; at the first dot return the suffix that starts there. -/
def extAux : List Char → List Char → GoString
  | [], _ => []
  | c :: rest, acc =>
    if c = '/' then [] else if c = '.' then '.' :: acc else extAux rest (c :: acc)

/-- The function `path.Ext`. -/
def Ext (path : GoString) : GoString := extAux path.reverse []

/-- The backtracking of `Clean` at a `..` element, on the reversed output buffer:
`out.w--; for out.w > dotdot && out.index(out.w) != '/' { out.w-- }`. -/
def backtrackAux (dotdot : Nat) : List Char → List Char
  | [] => []
  | c :: rest =>
    if rest.length > dotdot && c != '/' then backtrackAux dotdot rest else rest

/-- The output buffer of `Clean` after backtracking over the last element. -/
def backtrack (out : List Char) (dotdot : Nat) : List Char :=
  (backtrackAux dotdot out.reverse).reverse

/-- The main loop `for r < n` of `Clean`: `r` is the unread input, `out` the output
buffer, `dotdot` the index below which the buffer may not be truncated. Every
iteration reads at least one character, so `fuel = len(path) + 1` is enough. -/
def cleanLoop (rooted : Bool) : Nat → List Char → List Char → Nat → List Char
  | 0, _, out, _ => out
  | _ + 1, [], out, _ => out
  | fuel + 1, c :: rest, out, dotdot =>
    if c = '/' then
      -- empty path element
      cleanLoop rooted fuel rest out dotdot
    else if c = '.' && (rest.isEmpty || rest.head? == some '/') then
      -- . element
      cleanLoop rooted fuel rest out dotdot
    else if c = '.' && rest.head? == some '.' &&
        (rest.tail.isEmpty || rest.tail.head? == some '/') then
      -- .. element: remove to last separator
      if out.length > dotdot then
        cleanLoop rooted fuel rest.tail (backtrack out dotdot) dotdot
      else if !rooted then
        let out2 := (if out.length > 0 then out ++ ['/'] else out) ++ ['.', '.']
        cleanLoop rooted fuel rest.tail out2 out2.length
      else
        cleanLoop rooted fuel rest.tail out dotdot
    else
      -- real path element: add slash if needed, copy element
      let out1 :=
        if (rooted && out.length != 1) || (!rooted && out.length != 0) then out ++ ['/']
        else out
      cleanLoop rooted fuel ((c :: rest).dropWhile (· != '/'))
        (out1 ++ (c :: rest).takeWhile (· != '/')) dotdot

/-- The function `path.Clean` (and `filepath.Clean` on Unix). -/
def Clean (path : GoString) : GoString :=
  if path.isEmpty then ['.']
  else
    let rooted := path.head? == some '/'
    let out :=
      if rooted then cleanLoop true (path.length + 1) path.tail ['/'] 1
      else cleanLoop false (path.length + 1) path [] 0
    if out.isEmpty then ['.'] else out

/-- The function `path.Join` (and `filepath.Join` on Unix): the elements from the
first non-empty one on, joined by slashes and cleaned. -/
def Join (elem : List GoString) : GoString :=
  match elem.dropWhile (·.isEmpty) with
  | [] => []
  | es => Clean (List.intercalate ['/'] es)

/-- The function `path.Dir` (and `filepath.Dir` on Unix): everything up to the last
slash, cleaned. -/
def Dir (path : GoString) : GoString :=
  Clean (path.reverse.dropWhile (· != '/')).reverse

/-- The function `path.Base`. -/
def Base (path : GoString) : GoString :=
  if path.isEmpty then ['.']
  else
    let p := (path.reverse.dropWhile (· == '/')).reverse
    let p := (p.reverse.takeWhile (· != '/')).reverse
    if p.isEmpty then ['/'] else p

/-- A path element that `Clean` keeps as it is: not empty, without a slash, and
neither `.` nor `..`. -/
def NormalElem (c : GoString) : Prop :=
  c ≠ [] ∧ '/' ∉ c ∧ c ≠ ['.'] ∧ c ≠ ['.', '.']

instance instDecidableNormalElem (c : GoString) : Decidable (NormalElem c) := by
  unfold NormalElem
  exact inferInstance

/-- The path made of the elements, with a slash between them. -/
def joinElems : List GoString → GoString
  | [] => []
  | [c] => c
  | c :: d :: rest => c ++ '/' :: joinElems (d :: rest)

/-- The function `strconv.Atoi` on the digits of a number: the value so far is
`acc`; fails on a character that is not a decimal digit. -/
def atoiDigits : List Char → Nat → Option Nat
  | [], acc => some acc
  | c :: rest, acc =>
    if '0' ≤ c ∧ c ≤ '9' then atoiDigits rest (acc * 10 + (c.toNat - '0'.toNat)) else none

/-- The function `strconv.Atoi`: an optional sign and at least one decimal digit, the
value in the range of a 64-bit `int`; `none` is a syntax or range error. -/
def Atoi (s : GoString) : Option Int :=
  let neg := s.head? == some '-'
  let digits := if s.head? == some '-' || s.head? == some '+' then s.tail else s
  if digits.isEmpty then none
  else
    match atoiDigits digits 0 with
    | none => none
    | some n =>
      if neg then (if n ≤ 2 ^ 63 then some (-(n : Int)) else none)
      else (if n < 2 ^ 63 then some (n : Int) else none)

/-- The decimal digits of `n` in front of `acc`, at most `fuel` of them. -/
def decimalAux : Nat → Nat → List Char → List Char
  | 0, _, acc => acc
  | fuel + 1, n, acc =>
    if n < 10 then Char.ofNat (48 + n) :: acc
    else decimalAux fuel (n / 10) (Char.ofNat (48 + n % 10) :: acc)

/-- The id of a user or group as the libraries hand it over (the fields `Uid` of
`user.User` and `Gid` of `group.Group`): the decimal number of the `uid_t` or
`gid_t`, which has 32 bits. -/
def idString (id : Nat) : GoString := decimalAux 10 (id % 2 ^ 32) []

/-- The number of bytes of a text in UTF-8. -/
def utf8Len (s : GoString) : Nat := (s.map Char.utf8Size).sum

/-! ### The file system

The state of the file system is a table from the path of a location to what is
there. A location is named by its path from the root without `.`, `..`, empty
names or symlinks on the way (`keyOf`); a system call reaches the location of the
path it is given by the walk of the kernel (`walkAux`): name by name, through
directories and through the symlinks it meets. So an object that a symlink leads
to is the same object under both paths, and nothing is found below a name that
has been removed. The working directory is not part of the state: every path the
engine builds is absolute, and a relative path is walked from the root.
Transient I/O faults are not part of the state; permission checks are not
modelled (the process is privileged, it calls `chown`). -/

/-- The error numbers the source distinguishes, and the ones the model produces. -/
inductive Errno where
  | ENOENT | ENOTDIR | ENOTEMPTY | EEXIST | EINVAL | EISDIR | ELOOP
  deriving DecidableEq, Repr

/-- An object of the file system, as `Lstat` reports it: `mode` is the value of
`FileInfo.Mode()`, `uid` and `gid` the owner of `Sys().(*syscall.Stat_t)`; `data` is the
content when the object is a regular file, `target` the link when it is a symlink. -/
structure Node where
  mode : Nat
  uid : Int
  gid : Int
  data : GoString
  target : GoString
  deriving DecidableEq, Repr

/-- What is at a location: an object, nothing, or a name whose lookup fails with an
error that the model does not derive from the table (a name that is too long, a
lasting error of the medium). -/
inductive Entry where
  | node (n : Node)
  | absent
  | fault (e : Errno)
  deriving DecidableEq, Repr

/-- A file system: the latest binding of a location counts, an unbound location is
absent. -/
abbrev FS := List (GoString × Entry)

/-- The entry at a location. -/
def FS.entryAt : FS → GoString → Entry
  | [], _ => Entry.absent
  | (q, e) :: rest, p => if p = q then e else FS.entryAt rest p

/-- The file system with location `p` bound to `e`. -/
def FS.put (fs : FS) (p : GoString) (e : Entry) : FS := (p, e) :: fs

/-- The function `os.IsNotExist` on the errors of the model. -/
def IsNotExist (e : Errno) : Bool := e == Errno.ENOENT

/-- The names of a path: the text between its slashes; `cur` is the name read so
far, reversed. -/
def splitSlash : List Char → List Char → List GoString
  | [], cur => [cur.reverse]
  | c :: rest, cur =>
    if c = '/' then cur.reverse :: splitSlash rest [] else splitSlash rest (c :: cur)

/-- The path of the location with the given names from the root. -/
def keyOf (names : List GoString) : GoString := '/' :: joinElems names

/-- What a walk has reached: the number of symlinks it may still follow, the names
of the location from the root, and the entry there. -/
abbrev Walked := Nat × List GoString × Entry

/-- The walk of the kernel from the directory `cur` along the names of a path
(`link_path_walk`): an empty name and `.` stay, `..` goes up, a directory is
entered, a symlink on the way is followed (by `sub`, which walks its link from the
root or from `cur`), and so is a symlink at the last name when `followLast` is
set. The last name may be missing: the walk then ends at the location where it
would be. `n` symlinks may still be followed. -/
def walkAux (fs : FS) (sub : Nat → List GoString → List GoString → Except Errno Walked)
    (followLast : Bool) : Nat → List GoString → List GoString → Except Errno Walked
  | n, cur, [] => Except.ok (n, cur, fs.entryAt (keyOf cur))
  | n, cur, c :: rest =>
    if c = [] ∨ c = ['.'] then walkAux fs sub followLast n cur rest
    else if c = ['.', '.'] then walkAux fs sub followLast n cur.dropLast rest
    else
      match fs.entryAt (keyOf (cur ++ [c])) with
      | Entry.fault e => Except.error e
      | Entry.absent =>
        if rest.isEmpty then Except.ok (n, cur ++ [c], Entry.absent)
        else Except.error Errno.ENOENT
      | Entry.node m =>
        if m.mode &&& ModeSymlink != 0 then
          if rest.isEmpty && !followLast then Except.ok (n, cur ++ [c], Entry.node m)
          else if n = 0 then Except.error Errno.ELOOP
          else if m.target.isEmpty then Except.error Errno.ENOENT
          else
            match sub (n - 1) (if m.target.head? == some '/' then [] else cur)
                (splitSlash m.target []) with
            | Except.error e => Except.error e
            | Except.ok (_, _, Entry.fault e) => Except.error e
            | Except.ok (_, _, Entry.absent) => Except.error Errno.ENOENT
            | Except.ok (n2, q, Entry.node m2) =>
              if rest.isEmpty then Except.ok (n2, q, Entry.node m2)
              else if IsDir m2.mode then walkAux fs sub followLast n2 q rest
              else Except.error Errno.ENOTDIR
        else if rest.isEmpty then Except.ok (n, cur ++ [c], Entry.node m)
        else if IsDir m.mode then walkAux fs sub followLast n (cur ++ [c]) rest
        else Except.error Errno.ENOTDIR

/-- The walk with the links of symlinks walked in turn; `fuel` bounds the nesting
of symlinks, which is at most the number of symlinks followed. -/
def walkF (fs : FS) : Nat → Bool → Nat → List GoString → List GoString → Except Errno Walked
  | 0 => fun _ _ _ _ => Except.error Errno.ELOOP
  | fuel + 1 => fun followLast => walkAux fs (walkF fs fuel true) followLast

/-- The location a path leads to and the entry there; the kernel follows at most
40 symlinks. The empty path leads nowhere. -/
def locate (fs : FS) (followLast : Bool) (p : GoString) : Except Errno (GoString × Entry) :=
  if p.isEmpty then Except.error Errno.ENOENT
  else
    match walkF fs 41 followLast 40 [] (splitSlash p []) with
    | Except.error e => Except.error e
    | Except.ok (_, names, e) => Except.ok (keyOf names, e)

/-- The function `os.Lstat`. -/
def Lstat (fs : FS) (p : GoString) : Except Errno Node :=
  match locate fs false p with
  | Except.ok (_, Entry.node n) => Except.ok n
  | Except.ok (_, Entry.absent) => Except.error Errno.ENOENT
  | Except.ok (_, Entry.fault e) => Except.error e
  | Except.error e => Except.error e

/-- The object a path leads to when the symlink at its last name is followed too,
and the location of the object. -/
def resolve (fs : FS) (p : GoString) : Except Errno (GoString × Node) :=
  match locate fs true p with
  | Except.ok (q, Entry.node n) => Except.ok (q, n)
  | Except.ok (_, Entry.absent) => Except.error Errno.ENOENT
  | Except.ok (_, Entry.fault e) => Except.error e
  | Except.error e => Except.error e

/-- The function `os.Stat`. -/
def Stat (fs : FS) (p : GoString) : Except Errno Node :=
  match resolve fs p with
  | Except.ok (_, n) => Except.ok n
  | Except.error e => Except.error e

/-- The function `os.Readlink`. -/
def Readlink (fs : FS) (p : GoString) : Except Errno GoString :=
  match Lstat fs p with
  | Except.ok n => if n.mode &&& ModeSymlink != 0 then Except.ok n.target
                   else Except.error Errno.EINVAL
  | Except.error e => Except.error e

/-- The content read from path `p` by `os.Open` and reads up to the end of the
stream: the data of the regular file the path leads to. A directory can be opened
but not read; other kinds of objects have no content in the model. -/
def readAll (fs : FS) (p : GoString) : Except Errno GoString :=
  match resolve fs p with
  | Except.ok (_, n) =>
    if IsDir n.mode then Except.error Errno.EISDIR
    else if IsRegular n.mode then Except.ok n.data
    else Except.error Errno.EINVAL
  | Except.error e => Except.error e

/-- The bits of a `FileMode` that `chmod` sets (`syscallMode`): permission bits,
setuid, setgid, sticky. -/
def chmodMask : Nat := ModePerm ||| ModeSetuid ||| ModeSetgid ||| ModeSticky

/-- The mode of an object after `chmod` with `mode`: the type bits stay. -/
def chmodBits (old mode : Nat) : Nat := andNot old chmodMask ||| (mode &&& chmodMask)

/-- The mode of an object after `chown` on Linux, whatever the ids: an object that
is not a directory loses setuid, and it loses setgid when it is executable by the
group. -/
def chownBits (mode : Nat) : Nat :=
  if IsDir mode then mode
  else
    let cleared := andNot mode ModeSetuid
    if mode &&& 0o010 != 0 then andNot cleared ModeSetgid else cleared

/-- The function `os.Chmod`: follows symlinks. -/
def Chmod (fs : FS) (p : GoString) (mode : Nat) : Except Errno FS :=
  match resolve fs p with
  | Except.ok (q, n) =>
    Except.ok (fs.put q (Entry.node { n with mode := chmodBits n.mode mode }))
  | Except.error e => Except.error e

/-- The function `os.Chown`: follows symlinks; an id of -1 leaves the id as it is. -/
def Chown (fs : FS) (p : GoString) (uid gid : Int) : Except Errno FS :=
  match resolve fs p with
  | Except.ok (q, n) =>
    Except.ok (fs.put q (Entry.node { n with
      mode := chownBits n.mode,
      uid := if uid = -1 then n.uid else uid, gid := if gid = -1 then n.gid else gid }))
  | Except.error e => Except.error e

/-- Whether the directory at location `d` has an entry: an object is bound to a
location in `d`. -/
def hasChild (fs : FS) (d : GoString) : Bool :=
  fs.any fun b =>
    match (splitSlash b.1.tail []).getLast? with
    | none => false
    | some c =>
      b.1.head? == some '/' && decide (NormalElem c) &&
        keyOf (splitSlash b.1.tail []).dropLast == d &&
        (match fs.entryAt b.1 with
         | Entry.node _ => true
         | _ => false)

/-- The function `os.Remove`: `unlink`, and `rmdir` for a directory, which fails
on a directory that is not empty. The symlink at the last name is not followed. -/
def Remove (fs : FS) (p : GoString) : Except Errno FS :=
  match locate fs false p with
  | Except.ok (q, Entry.node n) =>
    if IsDir n.mode then
      if hasChild fs q then Except.error Errno.ENOTEMPTY
      else Except.ok (fs.put q Entry.absent)
    else Except.ok (fs.put q Entry.absent)
  | Except.ok (_, Entry.absent) => Except.error Errno.ENOENT
  | Except.ok (_, Entry.fault e) => Except.error e
  | Except.error e => Except.error e

/-- The directory a temporary file for `p` is created in (`filepath.Dir`) must
exist. -/
def parentDir (fs : FS) (p : GoString) : Except Errno Unit :=
  match Stat fs (Dir p) with
  | Except.ok n => if IsDir n.mode then Except.ok () else Except.error Errno.ENOTDIR
  | Except.error e => Except.error e

/-- The identity of the process and its file creation mask. -/
structure Proc where
  euid : Int
  egid : Int
  umask : Nat
  deriving DecidableEq, Repr

/-- The function `os.Mkdir`. -/
def Mkdir (pr : Proc) (fs : FS) (p : GoString) (perm : Nat) : Except Errno FS :=
  match locate fs false p with
  | Except.ok (_, Entry.node _) => Except.error Errno.EEXIST
  | Except.ok (_, Entry.fault e) => Except.error e
  | Except.error e => Except.error e
  | Except.ok (q, Entry.absent) =>
    Except.ok (fs.put q (Entry.node
      { mode := ModeDir ||| andNot (perm &&& ModePerm) pr.umask,
        uid := pr.euid, gid := pr.egid, data := [], target := [] }))

/-- The function `os.MkdirAll`: the file system afterwards and the error, if any;
the recursion on the parent is bounded by the length of the path. -/
def MkdirAll (pr : Proc) : Nat → FS → GoString → Nat → FS × Option Errno
  | 0, fs, _, _ => (fs, some Errno.ELOOP)
  | fuel + 1, fs, path, perm =>
    -- Fast path: if we can tell whether path is a directory or file, stop.
    match Stat fs path with
    | Except.ok dir => if IsDir dir.mode then (fs, none) else (fs, some Errno.ENOTDIR)
    | Except.error _ =>
      -- Slow path: make sure parent exists and then call Mkdir for path.
      let stripped := (path.reverse.dropWhile (· == '/')).reverse
      let parent := (stripped.reverse.dropWhile (· != '/')).reverse
      let made :=
        if parent.length > 1 then MkdirAll pr fuel fs (parent.take (parent.length - 1)) perm
        else (fs, none)
      match made with
      | (fs1, some e) => (fs1, some e)
      | (fs1, none) =>
        match Mkdir pr fs1 path perm with
        | Except.ok fs2 => (fs2, none)
        | Except.error e =>
          match Lstat fs1 path with
          | Except.ok d => if IsDir d.mode then (fs1, none) else (fs1, some e)
          | Except.error _ => (fs1, some e)

/-- The function `os.Symlink`. -/
def Symlink (pr : Proc) (fs : FS) (dest p : GoString) : Except Errno FS :=
  match locate fs false p with
  | Except.ok (_, Entry.node _) => Except.error Errno.EEXIST
  | Except.ok (_, Entry.fault e) => Except.error e
  | Except.error e => Except.error e
  | Except.ok (q, Entry.absent) =>
    Except.ok (fs.put q (Entry.node
      { mode := ModeSymlink ||| ModePerm, uid := pr.euid, gid := pr.egid,
        data := [], target := dest }))

/-- The function `os.Rename` of a regular file `tmp`, which is not yet entered in the
model, to `dst`: replaces what is at `dst`, unless that is a directory. -/
def renameOver (fs : FS) (tmp : Node) (dst : GoString) : Except Errno FS :=
  match locate fs false dst with
  | Except.error e => Except.error e
  | Except.ok (_, Entry.fault e) => Except.error e
  | Except.ok (q, Entry.absent) => Except.ok (fs.put q (Entry.node tmp))
  | Except.ok (q, Entry.node n) =>
    if IsDir n.mode then Except.error Errno.EISDIR else Except.ok (fs.put q (Entry.node tmp))

/-! ### What a run gets from outside -/

/-- The keys present in an override document (`owner`, `group`, `perms`): what
`yaml.Unmarshal` into a `RepositoryFile` assigns; a key that is absent leaves its
field as it was. -/
structure ParamsDoc where
  owner : Option GoString
  group : Option GoString
  perms : Option Nat
  deriving DecidableEq, Repr

/-- The global variables of main.go that the engine reads, the process, and what
the engine gets from libraries and the run time: the YAML decoder, the identity
database of the host (the uid of a user name and the gid of a group name, if the
name is known: `user.Lookup`, `group.Lookup`), the template engine, and the order
in which a `range` over a map delivers the keys (`rangeOrder i keys` at the `i`-th
`range` statement of the engine, a permutation of the keys that the run time
chooses anew in every run). -/
structure World where
  BASEDIR : GoString
  PREVIOUS_LIST : GoString
  IGNORED_DIRS : List GoString
  DRYRUN : Bool
  VERBOSE : Bool
  proc : Proc
  pagesize : Nat
  yamlUnmarshal : GoString → Except GoString ParamsDoc
  userLookup : GoString → Option Nat
  groupLookup : GoString → Option Nat
  render : GoString → Except GoString GoString
  rangeOrder : Nat → List GoString → List GoString

/-- The errors the engine returns. -/
inductive Error where
  | sys (e : Errno)
  | params (e : GoString)
  | atoi (s : GoString)
  | conflictDir (path : GoString)
  | conflictSymlink (path : GoString)
  | conflictRegular (path : GoString)
  | template (e : GoString)
  | tooLong
  | reading (e : Error)
  | removing (e : Error)
  deriving DecidableEq, Repr

/-! ### misc.go: `equalContent`, `copyFileContents`, `StringSet` -/

/-- The size of the buffer of the readers: `bufio.NewReaderSize(f, 256*1024)`. -/
def readerSize : Nat := 256 * 1024

/-- A `bufio.Reader` on a file: the bytes in its buffer, and the rest of the file. -/
structure Reader where
  buf : GoString
  rest : GoString
  deriving DecidableEq, Repr

/-- The method `bufio.Reader.Read` into a buffer of `n > 0` bytes: the bytes read,
whether the error is `io.EOF` (it is `nil` otherwise), and the reader afterwards.
An empty buffer is filled by one read of the file, or the file is read directly
when `n` is at least the size of the buffer. -/
def Reader.Read (rd : Reader) (n : Nat) : GoString × Bool × Reader :=
  if rd.buf.isEmpty then
    if n ≥ readerSize then
      (rd.rest.take n, rd.rest.isEmpty, { buf := [], rest := rd.rest.drop n })
    else
      let filled := rd.rest.take readerSize
      if filled.isEmpty then ([], true, rd)
      else (filled.take n, false, { buf := filled.drop n, rest := rd.rest.drop readerSize })
  else (rd.buf.take n, false, { buf := rd.buf.drop n, rest := rd.rest })

/-- The loop of `equalContent`. Every iteration reads from a file that is not
at its end, or ends the loop; without fuel the loop has not returned, which is
`false` here. -/
def equalContentLoop (pagesize : Nat) : Nat → Reader → Reader → Bool → Bool → Bool
  | 0, _, _, _, _ => false
  | fuel + 1, rd1, rd2, f1EOFseen, f2EOFseen =>
    let r1 := rd1.Read pagesize
    let f1EOFseen := f1EOFseen || r1.2.1
    let r2 := rd2.Read pagesize
    let f2EOFseen := f2EOFseen || r2.2.1
    if r1.1 != r2.1 then false
    else if f1EOFseen && f2EOFseen then true
    else equalContentLoop pagesize fuel r1.2.2 r2.2.2 f1EOFseen f2EOFseen

/-- Returns true if both files definitely have the same content (misc.go). A file
that cannot be opened or read gives `false`. -/
def equalContent (w : World) (fs : FS) (fname1 fname2 : GoString) : Bool :=
  if fname1 = fname2 then true
  else
    match readAll fs fname1, readAll fs fname2 with
    | Except.ok c1, Except.ok c2 =>
      if c1.length != c2.length then false
      else
        equalContentLoop w.pagesize (c1.length + 2) { buf := [], rest := c1 }
          { buf := [], rest := c2 } false false
    | _, _ => false

/-- The file `ioutil.TempFile` creates. -/
def tempNode (pr : Proc) : Node :=
  { mode := andNot 0o600 pr.umask, uid := pr.euid, gid := pr.egid, data := [], target := [] }

/-- The calls `os.Chmod` and `os.Chown` on the temporary file, in this order. -/
def chmodChown (tmp : Node) (mode : Nat) (uid gid : Int) : Node :=
  { tmp with
    mode := chownBits (chmodBits tmp.mode mode),
    uid := if uid = -1 then tmp.uid else uid,
    gid := if gid = -1 then tmp.gid else gid }

/-- Copies content from srcname to dstname and sets the access attributes and the
owner/group (misc.go). The temporary file is removed on every path, so only the
rename changes the file system. -/
def copyFileContents (w : World) (fs : FS) (srcname dstname : GoString) (mode : Nat)
    (uid gid : Int) : FS × Option Error :=
  match resolve fs srcname with
  | Except.error e => (fs, some (Error.sys e))
  | Except.ok _ =>
    match parentDir fs dstname with
    | Except.error e => (fs, some (Error.sys e))
    | Except.ok _ =>
      match readAll fs srcname with
      | Except.error e => (fs, some (Error.sys e))
      | Except.ok c =>
        let tmpfile := chmodChown { tempNode w.proc with data := c } mode uid gid
        match renameOver fs tmpfile dstname with
        | Except.error e => (fs, some (Error.sys e))
        | Except.ok fs1 => (fs1, none)

/-- Type based on map for simple operation with string lists (misc.go): the keys,
each once. The order of the list is the order in which the keys were added; a
`range` over the map delivers them in the order `World.rangeOrder` gives. -/
abbrev StringSet := List GoString

/-- The method `StringSet.Has`. -/
def StringSet.Has (ss : StringSet) (v : GoString) : Bool := ss.contains v

/-- The method `StringSet.Add`, for one value. -/
def StringSet.Add (ss : StringSet) (v : GoString) : StringSet :=
  if ss.contains v then ss else ss ++ [v]

/-- The method `StringSet.Remove`. -/
def StringSet.Remove (ss : StringSet) (v : GoString) : StringSet :=
  ss.filter (· != v)

/-! ### templates.go -/

/-- Executes a given template tplname and writes the result to dstname
(templates.go, for a `dstname` that is not empty). -/
def executeTemplate (w : World) (fs : FS) (tplname dstname : GoString) (mode : Nat)
    (uid gid : Int) : FS × Option Error :=
  match readAll fs tplname with
  | Except.error e => (fs, some (Error.sys e))
  | Except.ok text =>
    match parentDir fs dstname with
    | Except.error e => (fs, some (Error.sys e))
    | Except.ok _ =>
      match w.render text with
      | Except.error e => (fs, some (Error.template e))
      | Except.ok c =>
        let tmpfile := chmodChown { tempNode w.proc with data := c } mode uid gid
        match renameOver fs tmpfile dstname with
        | Except.error e => (fs, some (Error.sys e))
        | Except.ok fs1 => (fs1, none)

/-! ### repofiles.go -/

/-- Type describes parameters of repository file (repofiles.go). -/
structure RepositoryFile where
  Path : GoString
  FSPath : GoString
  Owner : GoString
  Group : GoString
  Uid : Int
  Gid : Int
  Perms : Nat
  Mode : Nat
  IsTemplate : Bool
  deriving DecidableEq, Repr

/-- The call `yaml.Unmarshal(c, &f)`: the keys present in the document overwrite
their fields. -/
def unmarshalInto (doc : ParamsDoc) (f : RepositoryFile) : RepositoryFile :=
  { f with
    Owner := doc.owner.getD f.Owner,
    Group := doc.group.getD f.Group,
    Perms := doc.perms.getD f.Perms }

/-- The block of `NewRepositoryFile` that applies one override file (lines 64-71 for
`.#_globparams`, lines 74-81 for the entry's own file): a file that cannot be read
is skipped, a document that cannot be decoded is an error. -/
def applyParams (w : World) (fs : FS) (paramsFile : GoString) (f : RepositoryFile) :
    Except Error RepositoryFile :=
  match readAll fs paramsFile with
  | Except.error _ => Except.ok f
  | Except.ok c =>
    match w.yamlUnmarshal c with
    | Except.error e => Except.error (Error.params e)
    | Except.ok doc =>
      let f := unmarshalInto doc f
      if f.Perms != 0 && f.Mode &&& ModeSymlink == 0 then
        Except.ok { f with Mode := andNot f.Mode ModePerm ^^^ permsToFileMode f.Perms }
      else Except.ok f

/-- The lookup of the owner in `NewRepositoryFile` (lines 84-93): `u.Uid` is the id
string of the uid found. -/
def lookupOwner (w : World) (f : RepositoryFile) : Except Error RepositoryFile :=
  match w.userLookup f.Owner with
  | some u =>
    match Atoi (idString u) with
    | some uid => Except.ok { f with Uid := uid }
    | none => Except.error (Error.atoi (idString u))
  | none => Except.ok { f with Owner := ['r', 'o', 'o', 't'] }

/-- The lookup of the group in `NewRepositoryFile` (lines 94-103): `g.Gid` is the id
string of the gid found. -/
def lookupGroup (w : World) (f : RepositoryFile) : Except Error RepositoryFile :=
  match w.groupLookup f.Group with
  | some g =>
    match Atoi (idString g) with
    | some gid => Except.ok { f with Gid := gid }
    | none => Except.error (Error.atoi (idString g))
  | none => Except.ok { f with Group := ['r', 'o', 'o', 't'] }

/-- The target path and the template flag `NewRepositoryFile` derives from the
source path (lines 39-43). -/
def targetOf (w : World) (repopath : GoString) : GoString × Bool :=
  let fspath := Join [['/'], TrimPrefix repopath w.BASEDIR]
  if Ext repopath = ".template".toList then (TrimSuffix fspath ".template".toList, true)
  else (fspath, false)

/-- The function `NewRepositoryFile` (repofiles.go). -/
def NewRepositoryFile (w : World) (fs : FS) (repopath : GoString) :
    Except Error RepositoryFile :=
  let f : RepositoryFile :=
    { Path := repopath, FSPath := (targetOf w repopath).1, Owner := "root".toList,
      Group := "root".toList, Uid := 0, Gid := 0, Perms := 0, Mode := 0,
      IsTemplate := (targetOf w repopath).2 }
  match Lstat fs f.Path with
  | Except.error e => Except.error (Error.sys e)
  | Except.ok fi =>
    let f := { f with Mode := fi.mode }
    -- If repopath is a file, then applying .#_globparams first and then .#FILENAME_params.
    -- If repopath is a directory, then applying only .#_params from this directory.
    let paramsFile :=
      if IsDir fi.mode then Join [f.Path, ".#_params".toList]
      else Join [Dir f.Path, ".#".toList ++ Base f.FSPath ++ "_params".toList]
    let globbed :=
      if !IsDir fi.mode then applyParams w fs (Join [Dir f.Path, ".#_globparams".toList]) f
      else Except.ok f
    match globbed with
    | Except.error e => Except.error e
    | Except.ok f =>
      match applyParams w fs paramsFile f with
      | Except.error e => Except.error e
      | Except.ok f =>
        match lookupOwner w f with
        | Except.error e => Except.error e
        | Except.ok f => lookupGroup w f

/-- Checks whether the file from repository is the same as file in the file system
(repofiles.go). On Linux `Sys()` is never nil. -/
def RepositoryFile.Exists (rf : RepositoryFile) (w : World) (fs : FS) : Bool :=
  -- Always overwrite template files
  if rf.IsTemplate then false
  else
    match Lstat fs rf.FSPath with
    | Except.error _ => false
    | Except.ok fsfileInfo =>
      -- Checking attributes and owner/group IDs
      if fsfileInfo.mode != rf.Mode then false
      else if fsfileInfo.uid != rf.Uid || fsfileInfo.gid != rf.Gid then false
      else if IsDir rf.Mode then
        if !IsDir fsfileInfo.mode then false else true
      else if rf.Mode &&& ModeSymlink != 0 then
        if fsfileInfo.mode &&& ModeSymlink == 0 then false
        else
          match Readlink fs rf.Path with
          | Except.error _ => false
          | Except.ok dest1 =>
            match Readlink fs rf.FSPath with
            | Except.error _ => false
            | Except.ok dest2 => if dest1 != dest2 then false else true
      else if IsRegular rf.Mode then
        if !IsRegular fsfileInfo.mode then false
        else if !equalContent w fs rf.Path rf.FSPath then false
        else true
      else true

/-- The calls `os.Chmod` and `os.Chown` that end the directory case of `Sync`. -/
def chmodThenChown (fs : FS) (p : GoString) (mode : Nat) (uid gid : Int) :
    FS × Option Error :=
  match Chmod fs p mode with
  | Except.error e => (fs, some (Error.sys e))
  | Except.ok fs1 =>
    match Chown fs1 p uid gid with
    | Except.error e => (fs1, some (Error.sys e))
    | Except.ok fs2 => (fs2, none)

/-- The directory case of `Sync` after the check of the destination. -/
def syncDir (w : World) (fs : FS) (rf : RepositoryFile) : FS × Option Error :=
  match MkdirAll w.proc (rf.FSPath.length + 1) fs rf.FSPath 0o755 with
  | (fs1, some e) => (fs1, some (Error.sys e))
  | (fs1, none) => chmodThenChown fs1 rf.FSPath rf.Mode rf.Uid rf.Gid

/-- The symlink case of `Sync` after the check of the destination. -/
def syncLink (w : World) (fs : FS) (rf : RepositoryFile) : FS × Option Error :=
  match Readlink fs rf.Path with
  | Except.error e => (fs, some (Error.sys e))
  | Except.ok dest =>
    match Symlink w.proc fs dest rf.FSPath with
    | Except.error e => (fs, some (Error.sys e))
    | Except.ok fs1 => (fs1, none)

/-- The regular file case of `Sync` after the check of the destination. -/
def syncRegular (w : World) (fs : FS) (rf : RepositoryFile) : FS × Option Error :=
  if rf.IsTemplate then executeTemplate w fs rf.Path rf.FSPath rf.Mode rf.Uid rf.Gid
  else copyFileContents w fs rf.Path rf.FSPath rf.Mode rf.Uid rf.Gid

/-- Syncs the file/directory from repository to the file system and sets the
access attributes and the owner/group (repofiles.go): the file system afterwards,
and the error returned, if any. -/
def RepositoryFile.Sync (rf : RepositoryFile) (w : World) (fs : FS) : FS × Option Error :=
  if IsDir rf.Mode then
    match Stat fs rf.FSPath with
    | Except.ok dfi =>
      if !IsDir dfi.mode then (fs, some (Error.conflictDir rf.FSPath)) else syncDir w fs rf
    | Except.error e =>
      if !IsNotExist e then (fs, some (Error.sys e)) else syncDir w fs rf
  else if rf.Mode &&& ModeSymlink != 0 then
    match Lstat fs rf.FSPath with
    | Except.ok dfi =>
      if dfi.mode &&& ModeSymlink == 0 then (fs, some (Error.conflictSymlink rf.FSPath))
      else
        match Remove fs rf.FSPath with
        | Except.error e => (fs, some (Error.sys e))
        | Except.ok fs1 => syncLink w fs1 rf
    | Except.error e =>
      if !IsNotExist e then (fs, some (Error.sys e)) else syncLink w fs rf
  else if IsRegular rf.Mode then
    match Stat fs rf.FSPath with
    | Except.ok dfi =>
      if !IsRegular dfi.mode then (fs, some (Error.conflictRegular rf.FSPath))
      else syncRegular w fs rf
    | Except.error e =>
      if !IsNotExist e then (fs, some (Error.sys e)) else syncRegular w fs rf
  else (fs, none)

/-! ### commands.go -/

/-- The lines written to the standard output: the two headings and the empty line
of `syncRepo`, `fmt.Println(repofile)`, and the three formats of `removeDeleted`:
`" -f %s"`, `" -d %s"` and `" -d %s (directory not empty so not removed)"`. -/
inductive Line where
  | updating
  | blank
  | removing
  | entry (rf : RepositoryFile)
  | removedFile (file : GoString)
  | removedDir (dir : GoString)
  | dirNotEmpty (dir : GoString)
  deriving DecidableEq, Repr

/-- The lines written to the standard error: the notice of `syncRepo` under DRYRUN
and the warnings of `warn`. -/
inductive Diag where
  | dryrun
  | warn (e : Error)
  deriving DecidableEq, Repr

/-- The state of a run: the file system, the global `HANDLED_FILES`, and the two
output streams. -/
structure State where
  fs : FS
  HANDLED_FILES : StringSet
  out : List Line
  err : List Diag
  deriving DecidableEq, Repr

/-- The function `syncFile` (commands.go): the state afterwards and the error
returned, if any. -/
def syncFile (w : World) (s : State) (p : GoString) : State × Option Error :=
  match NewRepositoryFile w s.fs p with
  | Except.error e => (s, some e)
  | Except.ok repofile =>
    if StringSet.Has w.IGNORED_DIRS repofile.FSPath then (s, none)
    else
      let s := { s with HANDLED_FILES := StringSet.Add s.HANDLED_FILES repofile.FSPath }
      if repofile.Exists w s.fs then
        if w.VERBOSE then ({ s with out := s.out ++ [Line.entry repofile] }, none)
        else (s, none)
      else if w.DRYRUN then ({ s with out := s.out ++ [Line.entry repofile] }, none)
      else
        match repofile.Sync w s.fs with
        | (fs1, none) => ({ s with fs := fs1, out := s.out ++ [Line.entry repofile] }, none)
        | (fs1, some e) => ({ s with fs := fs1 }, some e)

/-- The size `bufio.MaxScanTokenSize` in bytes: a line that does not fit the buffer
of the scanner ends the scan with `bufio.ErrTooLong`. -/
def MaxScanTokenSize : Nat := 64 * 1024

/-- The text cut at every newline; `cur` is the line read so far, reversed. The text
after the last newline is a line when it is not empty. -/
def splitLines : List Char → List Char → List GoString
  | [], cur => if cur.isEmpty then [] else [cur.reverse]
  | c :: rest, cur =>
    if c = '\n' then cur.reverse :: splitLines rest [] else splitLines rest (c :: cur)

/-- The function `dropCR` of bufio: drops a terminal carriage return. -/
def dropCR (line : GoString) : GoString :=
  if line.getLast? == some '\r' then line.dropLast else line

/-- The tokens of a `bufio.Scanner` with the default split function `ScanLines`, or
the error of the scanner: a line of `MaxScanTokenSize` bytes or more, the carriage
return counted, fills the buffer before its newline is seen. -/
def scanLines (text : GoString) : Except Error (List GoString) :=
  let lines := splitLines text []
  if lines.any (fun l => utf8Len l ≥ MaxScanTokenSize) then Except.error Error.tooLong
  else Except.ok (lines.map dropCR)

/-- The loop of `removeDeleted` that fills `prevHandled` from the lines of the
previous list. -/
def readPrevHandled : List GoString → StringSet → StringSet
  | [], prevHandled => prevHandled
  | text :: rest, prevHandled =>
    if TrimSpace text = [] then readPrevHandled rest prevHandled
    else readPrevHandled rest (StringSet.Add prevHandled text)

/-- The loop of `removeDeleted` that fills `diff`, over the keys of `prevHandled` as
the `range` delivers them. -/
def diffOf (prevHandled handled : StringSet) : StringSet :=
  prevHandled.filter (fun file => !StringSet.Has handled file)

/-- The loop "Removing files" of `removeDeleted` over the keys of `diff` as the
`range` delivers them: the file system, the output and `diff` afterwards, and the
error returned, if any. -/
def removeFiles (w : World) : List GoString → FS → List Line → StringSet →
    (FS × List Line × StringSet) × Option Error
  | [], fs, out, diff => ((fs, out, diff), none)
  | file :: rest, fs, out, diff =>
    match Lstat fs file with
    | Except.ok fi =>
      if IsDir fi.mode then removeFiles w rest fs out diff
      else
        let diff := StringSet.Remove diff file
        if w.DRYRUN then removeFiles w rest fs (out ++ [Line.removedFile file]) diff
        else
          match Remove fs file with
          | Except.ok fs1 => removeFiles w rest fs1 (out ++ [Line.removedFile file]) diff
          | Except.error e =>
            if IsNotExist e then removeFiles w rest fs (out ++ [Line.removedFile file]) diff
            else ((fs, out, diff), some (Error.sys e))
    | Except.error e =>
      if IsNotExist e then removeFiles w rest fs out (StringSet.Remove diff file)
      else ((fs, out, diff), some (Error.sys e))

/-- The loop "Removing directories" of `removeDeleted` over the keys left in `diff`
as the `range` delivers them. -/
def removeDirs (w : World) : List GoString → FS → List Line → (FS × List Line) × Option Error
  | [], fs, out => ((fs, out), none)
  | dir :: rest, fs, out =>
    if w.DRYRUN then removeDirs w rest fs (out ++ [Line.removedDir dir])
    else
      match Remove fs dir with
      | Except.ok fs1 => removeDirs w rest fs1 (out ++ [Line.removedDir dir])
      | Except.error e =>
        if IsNotExist e then removeDirs w rest fs (out ++ [Line.removedDir dir])
        else if e = Errno.ENOTEMPTY then removeDirs w rest fs (out ++ [Line.dirNotEmpty dir])
        else ((fs, out), some (Error.sys e))

/-- Removes files/directories that had been deleted from git repository
(commands.go). -/
def removeDeleted (w : World) (s : State) : State × Option Error :=
  match resolve s.fs w.PREVIOUS_LIST with
  | Except.error e => if IsNotExist e then (s, none) else (s, some (Error.sys e))
  | Except.ok _ =>
    match readAll s.fs w.PREVIOUS_LIST with
    | Except.error e => (s, some (Error.reading (Error.sys e)))
    | Except.ok text =>
      match scanLines text with
      | Except.error e => (s, some (Error.reading e))
      | Except.ok lines =>
        let prevHandled := readPrevHandled lines []
        let diff := diffOf (w.rangeOrder 0 prevHandled) s.HANDLED_FILES
        -- Removing files
        match removeFiles w (w.rangeOrder 1 diff) s.fs s.out diff with
        | ((fs1, out1, _), some e) => ({ s with fs := fs1, out := out1 }, some e)
        | ((fs1, out1, diff1), none) =>
          -- Removing directories
          match removeDirs w (w.rangeOrder 2 diff1) fs1 out1 with
          | ((fs2, out2), e) => ({ s with fs := fs2, out := out2 }, e)

/-- The loop of `syncRepo` over the paths that `walk(BASEDIR)` delivers: an error of
`syncFile` is a warning. -/
def syncAll (w : World) : List GoString → State → State
  | [], s => s
  | p :: rest, s =>
    match syncFile w s p with
    | (s1, none) => syncAll w rest s1
    | (s1, some e) => syncAll w rest { s1 with err := s1.err ++ [Diag.warn e] }

/-- The text `syncRepo` writes to the new list: every key of `HANDLED_FILES`, as the
`range` delivers them, and a newline. -/
def listText : StringSet → GoString
  | [] => []
  | k :: rest => k ++ '\n' :: listText rest

/-- The end of `syncRepo`, after the loop (lines 72-100): the previous list is
compared and, without DRYRUN, the new list is written beside it and renamed over
it. -/
def finishRepo (w : World) (s : State) : State × Option Error :=
  let s := { s with out := s.out ++ [Line.blank, Line.removing] }
  match removeDeleted w s with
  | (s1, some e) => (s1, some (Error.removing e))
  | (s1, none) =>
    if !w.DRYRUN then
      match parentDir s1.fs w.PREVIOUS_LIST with
      | Except.error e => (s1, some (Error.sys e))
      | Except.ok _ =>
        let tmpfile : Node :=
          { tempNode w.proc with data := listText (w.rangeOrder 3 s1.HANDLED_FILES) }
        match renameOver s1.fs tmpfile w.PREVIOUS_LIST with
        | Except.error e => (s1, some (Error.sys e))
        | Except.ok fs1 => ({ s1 with fs := fs1 }, none)
    else (s1, none)

/-- The names on the way to the last name of a path are directories and no
symlinks, up to the first that is missing; `cur` is the directory reached. -/
def plainDirs (fs : FS) : List GoString → List GoString → Bool
  | _, [] => true
  | _, [_] => true
  | cur, c :: d :: rest =>
    match fs.entryAt (keyOf (cur ++ [c])) with
    | Entry.node n =>
      IsDir n.mode && n.mode &&& ModeSymlink == 0 && plainDirs fs (cur ++ [c]) (d :: rest)
    | Entry.absent => true
    | Entry.fault _ => false

/-- The path names its location: it is absolute, its names are neither empty nor
`.` nor `..` (it is clean), and no name on the way to the last one is a symlink or
another object that is not a directory. -/
def plainPath (fs : FS) (p : GoString) : Prop :=
  p.head? = some '/' ∧ (∀ c ∈ splitSlash p.tail [], NormalElem c) ∧
    plainDirs fs [] (splitSlash p.tail []) = true

instance instDecidablePlainPath (fs : FS) (p : GoString) : Decidable (plainPath fs p) := by
  unfold plainPath
  exact inferInstance

/-- The set `IGNORED_DIRS` as `init` of main.go fills it. -/
def ignoredDirs : List GoString :=
  ["/base".toList, "/bin".toList, "/boot".toList, "/dev".toList, "/etc".toList,
   "/home".toList, "/lib".toList, "/proc".toList, "/root".toList, "/sbin".toList,
   "/sys".toList, "/usr".toList, "/var".toList]

/-- The YAML decoder on the documents of the examples; any other text, such as
the malformed document `owner: [`, is rejected. -/
def demoYaml (c : GoString) : Except GoString ParamsDoc :=
  if c = "perms: 04755\n".toList then
    Except.ok { owner := none, group := none, perms := some 0o4755 }
  else if c = "owner: svc\n".toList then
    Except.ok { owner := some "svc".toList, group := none, perms := none }
  else Except.error "yaml: did not find expected node content".toList

/-- The users of the host: `root` and `svc`. -/
def demoUsers (name : GoString) : Option Nat :=
  if name = "root".toList then some 0
  else if name = "svc".toList then some 1000
  else none

/-- The host: keeper runs in `/srv/keeper` as root, without DRYRUN. -/
def demoWorld : World :=
  { BASEDIR := "/srv/keeper/base".toList,
    PREVIOUS_LIST := "/srv/keeper/.keeper/.previous_list".toList,
    IGNORED_DIRS := ignoredDirs,
    DRYRUN := false,
    VERBOSE := false,
    proc := { euid := 0, egid := 0, umask := 0o022 },
    pagesize := 4096,
    yamlUnmarshal := demoYaml,
    userLookup := demoUsers,
    groupLookup := demoUsers,
    render := fun text => Except.ok text,
    rangeOrder := fun _ keys => keys }

/-- A directory owned by root with mode 0755. -/
def dirNode : Entry :=
  Entry.node { mode := ModeDir ||| 0o755, uid := 0, gid := 0, data := [], target := [] }

/-- A regular file owned by root with mode 0644. -/
def fileNode (data : GoString) : Entry :=
  Entry.node { mode := 0o644, uid := 0, gid := 0, data := data, target := [] }

/-- A symlink owned by root. -/
def linkNode (target : GoString) : Entry :=
  Entry.node { mode := ModeSymlink ||| 0o777, uid := 0, gid := 0, data := [], target := target }

/-- The directories of the host that the examples share. -/
def hostDirs : FS :=
  [("/".toList, dirNode), ("/srv".toList, dirNode), ("/srv/keeper".toList, dirNode),
   ("/srv/keeper/.keeper".toList, dirNode), ("/srv/keeper/base".toList, dirNode),
   ("/srv/keeper/base/etc".toList, dirNode), ("/etc".toList, dirNode),
   ("/opt".toList, dirNode)]

/-- The source tree holds `etc/motd`, and `/etc/motd` is a copy of it. -/
def motdFS : FS :=
  ("/srv/keeper/base/etc/motd".toList, fileNode "welcome\n".toList) ::
  ("/etc/motd".toList, fileNode "welcome\n".toList) :: hostDirs

/-- The entry of `etc/motd`, resolved without override files. -/
def motdEntry : RepositoryFile :=
  { Path := "/srv/keeper/base/etc/motd".toList, FSPath := "/etc/motd".toList,
    Owner := "root".toList, Group := "root".toList, Uid := 0, Gid := 0, Perms := 0,
    Mode := 0o644, IsTemplate := false }

/-- The entry of a template `etc/motd.template`. -/
def motdTemplate : RepositoryFile :=
  { motdEntry with Path := "/srv/keeper/base/etc/motd.template".toList, IsTemplate := true }

/-- The state at the start of a run on file system `fs`. -/
def freshState (fs : FS) : State := { fs := fs, HANDLED_FILES := [], out := [], err := [] }

/-- The source path of the directory `etc` of the source tree. -/
def etcPath : GoString := "/srv/keeper/base/etc".toList

/-- The source path of `opt/tool`. -/
def toolPath : GoString := "/srv/keeper/base/opt/tool".toList

/-- The source tree holds the regular file `opt/tool` and a directory-global
override that sets `perms: 04755` (setuid, rwxr-xr-x). -/
def globOnlyFS : FS :=
  ("/srv/keeper/base/opt".toList, dirNode) ::
  ("/srv/keeper/base/opt/tool".toList, fileNode "#!/bin/sh\n".toList) ::
  ("/srv/keeper/base/opt/.#_globparams".toList, fileNode "perms: 04755\n".toList) ::
  hostDirs

/-- The same source tree with an override file of `opt/tool` that sets the owner
and leaves perms unset. -/
def globAndOwnFS : FS :=
  ("/srv/keeper/base/opt/.#tool_params".toList, fileNode "owner: svc\n".toList) ::
  globOnlyFS

/-- The source path of the symlink `opt/current`. -/
def currentPath : GoString := "/srv/keeper/base/opt/current".toList

/-- The source tree holds the symlink `opt/current` with an override file that
sets the owner to `svc`; `/opt` exists and `/opt/current` does not. -/
def linkFS : FS :=
  ("/srv/keeper/base/opt".toList, dirNode) ::
  ("/srv/keeper/base/opt/current".toList, linkNode "releases/1".toList) ::
  ("/srv/keeper/base/opt/.#current_params".toList, fileNode "owner: svc\n".toList) ::
  hostDirs

/-- The entry of `opt/current` as `NewRepositoryFile` resolves it. -/
def currentEntry : RepositoryFile :=
  { Path := currentPath, FSPath := "/opt/current".toList, Owner := "svc".toList,
    Group := "root".toList, Uid := 1000, Gid := 0, Perms := 0,
    Mode := ModeSymlink ||| 0o777, IsTemplate := false }

/-- The source tree holds the template `etc/motd.template`. -/
def templateFS : FS :=
  ("/srv/keeper/base/etc/motd.template".toList, fileNode "welcome to {{.Hostname}}\n".toList) ::
  hostDirs

/-- The YAML decoder on the document `perms: 01777`. -/
def stickyYaml (c : GoString) : Except GoString ParamsDoc :=
  if c = "perms: 01777\n".toList then
    Except.ok { owner := none, group := none, perms := some 0o1777 }
  else Except.error "yaml: did not find expected node content".toList

/-- The host with that decoder. -/
def stickyWorld : World := { demoWorld with yamlUnmarshal := stickyYaml }

/-- The source path of the directory `tmp`. -/
def tmpPath : GoString := "/srv/keeper/base/tmp".toList

/-- The source tree holds the directory `tmp` with mode drwxrwxrwt (sticky, as
`/tmp` is) and the override `perms: 01777` in its `.#_params`. -/
def stickyFS : FS :=
  ("/srv/keeper/base/tmp".toList, Entry.node
    { mode := ModeDir ||| ModeSticky ||| 0o777, uid := 0, gid := 0, data := [], target := [] }) ::
  ("/srv/keeper/base/tmp/.#_params".toList, fileNode "perms: 01777\n".toList) :: hostDirs

/-! ## Theorems -/

/-! ### C4: the special bits -/

set_option maxRecDepth 20000 in
theorem reencode_permsToFileMode_blocks :
    ∀ a, a < 64 → ∀ b, b < 64 → reencode (permsToFileMode (a * 64 + b)) = a * 64 + b := by
  decide -- 4096 cases

/-- C4: for every extended permission value `p < 2^12`, re-encoding
`permsToFileMode p` gives back `p`, and so `permsToFileMode` is injective on the
12-bit range. -/
theorem permsToFileMode_roundtrip :
    (∀ p, p < 2 ^ 12 → reencode (permsToFileMode p) = p) ∧
    (∀ p q, p < 2 ^ 12 → q < 2 ^ 12 → permsToFileMode p = permsToFileMode q → p = q) := by
  have h : ∀ p, p < 2 ^ 12 → reencode (permsToFileMode p) = p := by
    intro p hp
    have h1 := reencode_permsToFileMode_blocks (p / 64) (by omega) (p % 64) (by omega)
    have h2 : p / 64 * 64 + p % 64 = p := by omega
    rw [h2] at h1
    exact h1
  refine ⟨h, ?_⟩
  intro p q hp hq hpq
  rw [← h p hp, ← h q hq, hpq]


/-! ### C1 and C5: `Exists` -/

theorem and_eq_zero_of_part (m a b : Nat) (hab : a &&& b = a) (h : m &&& b = 0) :
    m &&& a = 0 := by
  rw [← hab, Nat.and_comm a b, ← Nat.and_assoc, h, Nat.zero_and]

theorem not_isDir_of_isRegular {m : Nat} (h : IsRegular m = true) : IsDir m = false := by
  have h0 : m &&& ModeType = 0 := by simpa [IsRegular] using h
  have := and_eq_zero_of_part m ModeDir ModeType (by decide) h0
  simp [IsDir, this]

theorem not_symlink_of_isRegular {m : Nat} (h : IsRegular m = true) :
    m &&& ModeSymlink = 0 := by
  have h0 : m &&& ModeType = 0 := by simpa [IsRegular] using h
  exact and_eq_zero_of_part m ModeSymlink ModeType (by decide) h0

/-- The bytes a reader still delivers. -/
theorem Reader.Read_append (rd : Reader) (n : Nat) :
    (rd.Read n).1 ++ ((rd.Read n).2.2.buf ++ (rd.Read n).2.2.rest) = rd.buf ++ rd.rest := by
  unfold Reader.Read
  by_cases hb : rd.buf.isEmpty = true
  · have hb2 : rd.buf = [] := by simpa using hb
    by_cases hn : n ≥ readerSize
    · simp [hb, hn, hb2]
    · by_cases hf : (List.take readerSize rd.rest).isEmpty = true
      · simp [hb, hn, hf]
      · simp only [hb, hn, hf, if_true, if_false, Bool.false_eq_true]
        rw [← List.append_assoc, List.take_append_drop, List.take_append_drop, hb2]
        rfl
  · simp only [hb, if_false, Bool.false_eq_true]
    rw [← List.append_assoc, List.take_append_drop]



theorem isEmpty_eq_decide_length {α : Type} (l : List α) :
    l.isEmpty = decide (l.length = 0) := by
  cases l <;> simp

theorem Reader.Read_lockstep (rd1 rd2 : Reader) (n : Nat)
    (hb : rd1.buf.length = rd2.buf.length) (hr : rd1.rest.length = rd2.rest.length) :
    (rd1.Read n).1.length = (rd2.Read n).1.length ∧
    (rd1.Read n).2.1 = (rd2.Read n).2.1 ∧
    (rd1.Read n).2.2.buf.length = (rd2.Read n).2.2.buf.length ∧
    (rd1.Read n).2.2.rest.length = (rd2.Read n).2.2.rest.length := by
  unfold Reader.Read
  simp only [isEmpty_eq_decide_length, List.length_take, hb, hr]
  split
  · split
    · simp [hr]
    · split
      · simp [hb, hr]
      · simp [hr]
  · simp [hb, hr]

theorem Reader.Read_eof (rd : Reader) (n : Nat) :
    (rd.Read n).2.1 = true ↔ rd.buf.length + rd.rest.length = 0 := by
  unfold Reader.Read
  simp only [isEmpty_eq_decide_length, List.length_take]
  have hrs : 0 < readerSize := by decide
  split
  · rename_i h
    have h0 : rd.buf.length = 0 := by simpa using h
    split
    · simp [h0]
    · split
      · rename_i h2
        have : rd.rest.length = 0 := by
          have := of_decide_eq_true h2
          omega
        simp [h0, this]
      · rename_i h2
        have : rd.rest.length ≠ 0 := by
          intro h3
          apply h2
          simp [h3]
        simp [h0, this]
  · rename_i h
    have h0 : rd.buf.length ≠ 0 := by simpa using h
    simp [h0]

theorem Reader.Read_progress (rd : Reader) (n : Nat) (hn : 0 < n)
    (h : (rd.Read n).2.1 = false) :
    (rd.Read n).2.2.buf.length + (rd.Read n).2.2.rest.length <
      rd.buf.length + rd.rest.length := by
  have hne : ¬ (rd.buf.length + rd.rest.length = 0) := by
    rw [← Reader.Read_eof rd n, h]; simp
  have happ := congrArg List.length (Reader.Read_append rd n)
  simp only [List.length_append] at happ
  have hpos : 0 < (rd.Read n).1.length := by
    revert h
    unfold Reader.Read
    simp only [isEmpty_eq_decide_length, List.length_take]
    have hrs : 0 < readerSize := by decide
    split
    · rename_i hb
      have h0 : rd.buf.length = 0 := by simpa using hb
      split
      · intro h
        have : rd.rest.length ≠ 0 := by simpa using h
        simp only [List.length_take]; omega
      · split
        · intro h; simp at h
        · rename_i h2
          intro _
          have : rd.rest.length ≠ 0 := by
            intro h3
            apply h2
            simp [h3]
          simp only [List.length_take]; omega
    · rename_i hb
      have h0 : rd.buf.length ≠ 0 := by simpa using hb
      intro _
      simp only [List.length_take]; omega
  omega

theorem equalContentLoop_spec (pagesize : Nat) (hp : 0 < pagesize) :
    ∀ (fuel : Nat) (rd1 rd2 : Reader),
      rd1.buf.length = rd2.buf.length → rd1.rest.length = rd2.rest.length →
      rd1.buf.length + rd1.rest.length + 2 ≤ fuel →
      equalContentLoop pagesize fuel rd1 rd2 false false =
        decide (rd1.buf ++ rd1.rest = rd2.buf ++ rd2.rest) := by
  intro fuel
  induction fuel with
  | zero => intro rd1 rd2 _ _ h; omega
  | succ fuel ih =>
    intro rd1 rd2 hb hr hf
    obtain ⟨hl, he, hb2, hr2⟩ := Reader.Read_lockstep rd1 rd2 pagesize hb hr
    have ha1 := Reader.Read_append rd1 pagesize
    have ha2 := Reader.Read_append rd2 pagesize
    unfold equalContentLoop
    simp only [Bool.false_or]
    by_cases hc : (rd1.Read pagesize).1 = (rd2.Read pagesize).1
    · simp only [hc, bne_self_eq_false, Bool.false_eq_true, if_false]
      cases hE : (rd1.Read pagesize).2.1 with
      | true =>
        have hE2 : (rd2.Read pagesize).2.1 = true := by rw [← he, hE]
        simp only [hE2, Bool.and_self, if_true]
        have h1 := (Reader.Read_eof rd1 pagesize).1 hE
        have h2 := (Reader.Read_eof rd2 pagesize).1 hE2
        have e1 : rd1.buf ++ rd1.rest = [] := by
          apply List.eq_nil_of_length_eq_zero; simpa using h1
        have e2 : rd2.buf ++ rd2.rest = [] := by
          apply List.eq_nil_of_length_eq_zero; simpa using h2
        simp [e1, e2]
      | false =>
        have hE2 : (rd2.Read pagesize).2.1 = false := by rw [← he, hE]
        simp only [hE2, Bool.and_self, Bool.false_eq_true, if_false]
        have hprog := Reader.Read_progress rd1 pagesize hp hE
        rw [ih _ _ hb2 hr2 (by omega)]
        rw [← ha1, ← ha2, hc]
        simp
    · have hne : rd1.buf ++ rd1.rest ≠ rd2.buf ++ rd2.rest := by
        intro heq
        rw [← ha1, ← ha2] at heq
        exact hc (List.append_inj heq hl).1
      simp [hc, hne]



theorem equalContent_iff (w : World) (hp : 0 < w.pagesize) (fs : FS) (a b : GoString) :
    equalContent w fs a b = true ↔
      a = b ∨ ∃ c, readAll fs a = Except.ok c ∧ readAll fs b = Except.ok c := by
  unfold equalContent
  by_cases hab : a = b
  · simp [hab]
  · simp only [hab, if_false, false_or]
    cases h1 : readAll fs a with
    | error e => simp
    | ok c1 =>
      cases h2 : readAll fs b with
      | error e => simp
      | ok c2 =>
        by_cases hl : c1.length = c2.length
        · have := equalContentLoop_spec w.pagesize hp (c1.length + 2)
            { buf := [], rest := c1 } { buf := [], rest := c2 } rfl hl (by simp)
          simp only [hl, bne_self_eq_false, Bool.false_eq_true, if_false]
          rw [← hl, this]
          simp
          constructor
          · intro h; exact h.symm
          · intro h; exact h.symm
        · have hne : c2 ≠ c1 := fun h => hl (by rw [h])
          simp [hl, hne]

theorem walkAux_follow (fs : FS)
    (sub : Nat → List GoString → List GoString → Except Errno Walked) :
    ∀ (comps : List GoString) (n : Nat) (cur : List GoString) (r : Walked),
      walkAux fs sub false n cur comps = Except.ok r →
      (∀ m, r.2.2 = Entry.node m → m.mode &&& ModeSymlink = 0) →
      walkAux fs sub true n cur comps = Except.ok r := by
  intro comps
  induction comps with
  | nil =>
    intro n cur r h _
    rw [walkAux] at h
    rw [walkAux]
    exact h
  | cons c rest ih =>
    intro n cur r h hr
    rw [walkAux] at h
    rw [walkAux]
    by_cases h1 : c = [] ∨ c = ['.']
    · rw [if_pos h1] at h ⊢
      exact ih n cur r h hr
    · rw [if_neg h1] at h ⊢
      by_cases h2 : c = ['.', '.']
      · rw [if_pos h2] at h ⊢
        exact ih n cur.dropLast r h hr
      · rw [if_neg h2] at h ⊢
        cases he : fs.entryAt (keyOf (cur ++ [c])) with
        | fault e => rw [he] at h; simp at h
        | absent => rw [he] at h; simp only at h ⊢; exact h
        | node m =>
          rw [he] at h
          simp only at h ⊢
          by_cases hs : (m.mode &&& ModeSymlink != 0) = true
          · rw [if_pos hs] at h ⊢
            by_cases hrest : rest.isEmpty = true
            · simp only [hrest, Bool.not_false, Bool.and_self, if_true] at h
              cases h
              have := hr m rfl
              rw [this] at hs
              simp at hs
            · have hrest2 : rest.isEmpty = false := by simpa using hrest
              simp only [hrest2, Bool.false_and, Bool.false_eq_true, if_false] at h ⊢
              by_cases hn : n = 0
              · rw [if_pos hn] at h; simp at h
              · rw [if_neg hn] at h ⊢
                by_cases ht : m.target.isEmpty = true
                · rw [if_pos ht] at h; simp at h
                · rw [if_neg ht] at h ⊢
                  cases hsub : sub (n - 1) (if m.target.head? == some '/' then [] else cur)
                      (splitSlash m.target []) with
                  | error e => rw [hsub] at h; simp at h
                  | ok t =>
                    obtain ⟨n2, q, e2⟩ := t
                    rw [hsub] at h
                    cases e2 with
                    | fault e => simp at h
                    | absent => simp at h
                    | node m2 =>
                      simp only [Bool.false_eq_true, if_false] at h ⊢
                      by_cases hd : IsDir m2.mode = true
                      · rw [if_pos hd] at h ⊢
                        exact ih n2 q r h hr
                      · rw [if_neg hd] at h; simp at h
          · rw [if_neg hs] at h ⊢
            by_cases hrest : rest.isEmpty = true
            · rw [if_pos hrest] at h ⊢
              exact h
            · rw [if_neg hrest] at h ⊢
              by_cases hd : IsDir m.mode = true
              · rw [if_pos hd] at h ⊢
                exact ih n (cur ++ [c]) r h hr
              · rw [if_neg hd] at h; simp at h

theorem locate_follow (fs : FS) (p q : GoString) (n : Node)
    (h : locate fs false p = Except.ok (q, Entry.node n))
    (hs : n.mode &&& ModeSymlink = 0) :
    locate fs true p = Except.ok (q, Entry.node n) := by
  unfold locate at h ⊢
  by_cases hp : p.isEmpty = true
  · rw [if_pos hp] at h; simp at h
  · rw [if_neg hp] at h ⊢
    cases hw : walkF fs 41 false 40 [] (splitSlash p []) with
    | error e => rw [hw] at h; simp at h
    | ok r =>
      rw [hw] at h
      have hw2 : walkAux fs (walkF fs 40 true) false 40 [] (splitSlash p []) = Except.ok r := hw
      have hr : ∀ m, r.2.2 = Entry.node m → m.mode &&& ModeSymlink = 0 := by
        intro m hm
        obtain ⟨n2, names, e⟩ := r
        simp only [Except.ok.injEq, Prod.mk.injEq] at h
        simp only at hm
        rw [hm] at h
        cases h.2
        exact hs
      have h3 := walkAux_follow fs (walkF fs 40 true) (splitSlash p []) 40 [] r hw2 hr
      have h4 : walkF fs 41 true 40 [] (splitSlash p []) = Except.ok r := h3
      rw [h4]
      exact h

theorem Lstat_ok {fs : FS} {p : GoString} {n : Node} (h : Lstat fs p = Except.ok n) :
    ∃ q, locate fs false p = Except.ok (q, Entry.node n) := by
  unfold Lstat at h
  cases hl : locate fs false p with
  | error e => rw [hl] at h; simp at h
  | ok r =>
    obtain ⟨q, e⟩ := r
    rw [hl] at h
    cases e with
    | node m => simp at h; rw [h]; exact ⟨q, rfl⟩
    | absent => simp at h
    | fault e => simp at h

theorem readAll_of_regular (fs : FS) (p : GoString) (n : Node)
    (h : Lstat fs p = Except.ok n) (hR : IsRegular n.mode = true) :
    readAll fs p = Except.ok n.data := by
  obtain ⟨q, hq⟩ := Lstat_ok h
  have hs := not_symlink_of_isRegular hR
  have hd := not_isDir_of_isRegular hR
  have hf := locate_follow fs p q n hq (by simpa using hs)
  simp [readAll, resolve, hf, hd, hR]

/-- C5: a template entry never matches: `Exists` returns false at every target
state. -/
theorem exists_template (w : World) (fs : FS) (rf : RepositoryFile)
    (h : rf.IsTemplate = true) : rf.Exists w fs = false := by
  simp [RepositoryFile.Exists, h]

theorem exists_regular_iff_aux (w : World) (hp : 0 < w.pagesize) (fs : FS)
    (rf : RepositoryFile) (hT : rf.IsTemplate = false) (hR : IsRegular rf.Mode = true) :
    rf.Exists w fs = true ↔
      ∃ n, Lstat fs rf.FSPath = Except.ok n ∧ n.mode = rf.Mode ∧ n.uid = rf.Uid ∧
        n.gid = rf.Gid ∧
        ∃ c, readAll fs rf.Path = Except.ok c ∧ readAll fs rf.FSPath = Except.ok c := by
  have hs := not_symlink_of_isRegular hR
  have hd := not_isDir_of_isRegular hR
  unfold RepositoryFile.Exists
  simp only [hT, Bool.false_eq_true, if_false]
  cases hL : Lstat fs rf.FSPath with
  | error e => simp
  | ok n =>
    by_cases hm : n.mode = rf.Mode
    · by_cases hu : n.uid = rf.Uid
      · by_cases hg : n.gid = rf.Gid
        · have hRn : IsRegular n.mode = true := by rw [hm]; exact hR
          have hread := readAll_of_regular fs rf.FSPath n hL hRn
          simp only [hm, hu, hg, hd, hs, hR, bne_self_eq_false, Bool.false_eq_true, if_false,
            Bool.or_self, Bool.not_true, if_true]
          have key := equalContent_iff w hp fs rf.Path rf.FSPath
          cases hE : equalContent w fs rf.Path rf.FSPath with
          | true =>
            simp only [Bool.not_true, Bool.false_eq_true, if_false, true_iff]
            refine ⟨n, rfl, hm, hu, hg, ?_⟩
            rcases key.1 hE with h | h
            · exact ⟨n.data, by rw [h]; exact hread, hread⟩
            · exact h
          | false =>
            simp only [Bool.not_false, if_true, Bool.false_eq_true, false_iff]
            rintro ⟨n2, h2, -, -, -, c, hc1, hc2⟩
            have : equalContent w fs rf.Path rf.FSPath = true := key.2 (Or.inr ⟨c, hc1, hc2⟩)
            rw [hE] at this
            exact Bool.noConfusion this
        · simp only [hm, hu, bne_self_eq_false, Bool.false_eq_true, if_false]
          have : (n.gid != rf.Gid) = true := by simpa using hg
          simp only [this, Bool.or_true, if_true, Bool.false_eq_true, false_iff]
          rintro ⟨n2, h2, -, -, hg2, -⟩
          cases h2
          exact hg hg2
      · simp only [hm, bne_self_eq_false, Bool.false_eq_true, if_false]
        have : (n.uid != rf.Uid) = true := by simpa using hu
        simp only [this, Bool.true_or, if_true, Bool.false_eq_true, false_iff]
        rintro ⟨n2, h2, -, hu2, -⟩
        cases h2
        exact hu hu2
    · have : (n.mode != rf.Mode) = true := by simpa using hm
      simp only [this, if_true, Bool.false_eq_true, false_iff]
      rintro ⟨n2, h2, hm2, -⟩
      cases h2
      exact hm hm2


/-- C1: for a non-template entry whose resolved mode is a regular file, `Exists`
returns true exactly when the target has the resolved mode on every bit, the
resolved uid and gid, and the content of the source file; a target that differs
from a matching one in a mode bit, the uid, the gid or the content, the source
being the same, makes `Exists` return false. -/
theorem exists_regular_exact (w : World) (hp : 0 < w.pagesize) (fs : FS)
    (rf : RepositoryFile) (hT : rf.IsTemplate = false) (hR : IsRegular rf.Mode = true) :
    (rf.Exists w fs = true ↔
      ∃ n, Lstat fs rf.FSPath = Except.ok n ∧ n.mode = rf.Mode ∧ n.uid = rf.Uid ∧
        n.gid = rf.Gid ∧
        ∃ c, readAll fs rf.Path = Except.ok c ∧ readAll fs rf.FSPath = Except.ok c) ∧
    (∀ (fs2 : FS) (n n2 : Node), rf.Exists w fs = true →
      Lstat fs rf.FSPath = Except.ok n → Lstat fs2 rf.FSPath = Except.ok n2 →
      readAll fs2 rf.Path = readAll fs rf.Path →
      (n2.mode ≠ n.mode ∨ n2.uid ≠ n.uid ∨ n2.gid ≠ n.gid ∨ n2.data ≠ n.data) →
      rf.Exists w fs2 = false) := by
  refine ⟨exists_regular_iff_aux w hp fs rf hT hR, ?_⟩
  intro fs2 n n2 hE hL hL2 hsrc hdiff
  obtain ⟨m, hm1, hm2, hm3, hm4, c, hc1, hc2⟩ := (exists_regular_iff_aux w hp fs rf hT hR).1 hE
  rw [hL] at hm1
  cases hm1
  cases hE2 : rf.Exists w fs2 with
  | false => rfl
  | true =>
    exfalso
    obtain ⟨m2, hk1, hk2, hk3, hk4, c2, hd1, hd2⟩ :=
      (exists_regular_iff_aux w hp fs2 rf hT hR).1 hE2
    rw [hL2] at hk1
    cases hk1
    have r1 := readAll_of_regular fs rf.FSPath n hL (by rw [hm2]; exact hR)
    have r2 := readAll_of_regular fs2 rf.FSPath n2 hL2 (by rw [hk2]; exact hR)
    have e1 : c = n.data := by
      rw [r1] at hc2; cases hc2; rfl
    have e2 : c2 = n2.data := by
      rw [r2] at hd2; cases hd2; rfl
    have e3 : c2 = c := by
      rw [hsrc, hc1] at hd1; cases hd1; rfl
    rcases hdiff with h | h | h | h
    · exact h (by rw [hk2, hm2])
    · exact h (by rw [hk3, hm3])
    · exact h (by rw [hk4, hm4])
    · exact h (by rw [← e2, e3, e1])

/-- The copy of `etc/motd` at `/etc/motd` matches its entry. -/
theorem exists_regular_exact_witness :
    0 < demoWorld.pagesize ∧ motdEntry.IsTemplate = false ∧
      IsRegular motdEntry.Mode = true ∧ motdEntry.Exists demoWorld motdFS = true :=
  ⟨by decide, rfl, by decide,
    (exists_regular_exact demoWorld (by decide) motdFS motdEntry rfl (by decide)).1.mpr
      ⟨{ mode := 0o644, uid := 0, gid := 0, data := "welcome\n".toList, target := [] },
        by decide, by decide, by decide, by decide, "welcome\n".toList, by decide, by decide⟩⟩

/-- A template of `etc/motd` does not match the copy at `/etc/motd`. -/
theorem exists_template_witness :
    motdTemplate.IsTemplate = true ∧ motdTemplate.Exists demoWorld motdFS = false :=
  ⟨rfl, exists_template demoWorld motdFS motdTemplate rfl⟩

/-- The value 04755 (setuid, rwxr-xr-x) is recovered from its mode. -/
theorem permsToFileMode_roundtrip_witness :
    0o4755 < 2 ^ 12 ∧ reencode (permsToFileMode 0o4755) = 0o4755 :=
  ⟨by decide, permsToFileMode_roundtrip.1 0o4755 (by decide)⟩


/-! ### C2: the current manifest -/

theorem StringSet.mem_Add (ss : StringSet) (v t : GoString) :
    t ∈ StringSet.Add ss v ↔ t ∈ ss ∨ t = v := by
  unfold StringSet.Add
  by_cases h : ss.contains v = true
  · have hv : v ∈ ss := by simpa using h
    simp only [h, if_true]
    constructor
    · intro h1; exact Or.inl h1
    · rintro (h1 | h1)
      · exact h1
      · rw [h1]; exact hv
  · simp only [h, if_false, Bool.false_eq_true, List.mem_append, List.mem_singleton]

theorem syncFile_handled (w : World) (s : State) (p t : GoString) :
    t ∈ (syncFile w s p).1.HANDLED_FILES ↔
      t ∈ s.HANDLED_FILES ∨
        ∃ rf, NewRepositoryFile w s.fs p = Except.ok rf ∧ rf.FSPath = t ∧
          t ∉ w.IGNORED_DIRS := by
  unfold syncFile
  cases hN : NewRepositoryFile w s.fs p with
  | error e => simp
  | ok rf =>
    by_cases hI : StringSet.Has w.IGNORED_DIRS rf.FSPath = true
    · have hmem : rf.FSPath ∈ w.IGNORED_DIRS := by simpa [StringSet.Has] using hI
      simp only [hI, if_true]
      constructor
      · intro h; exact Or.inl h
      · rintro (h | ⟨rf2, h2, h3, h4⟩)
        · exact h
        · cases h2
          rw [h3] at hmem
          exact absurd hmem h4
    · have hmem : rf.FSPath ∉ w.IGNORED_DIRS := by simpa [StringSet.Has] using hI
      simp only [hI, if_false, Bool.false_eq_true]
      have key : t ∈ StringSet.Add s.HANDLED_FILES rf.FSPath ↔
          t ∈ s.HANDLED_FILES ∨
            ∃ rf2, Except.ok (ε := Error) rf = Except.ok rf2 ∧ rf2.FSPath = t ∧
              t ∉ w.IGNORED_DIRS := by
        rw [StringSet.mem_Add]
        constructor
        · rintro (h | h)
          · exact Or.inl h
          · exact Or.inr ⟨rf, rfl, h.symm, by rw [h]; exact hmem⟩
        · rintro (h | ⟨rf2, h2, h3, -⟩)
          · exact Or.inl h
          · cases h2; exact Or.inr h3.symm
      split
      · split <;> exact key
      · split
        · exact key
        · split <;> exact key



theorem syncAll_append (w : World) (pre post : List GoString) (s : State) :
    syncAll w (pre ++ post) s = syncAll w post (syncAll w pre s) := by
  induction pre generalizing s with
  | nil => rfl
  | cons p rest ih =>
    simp only [List.cons_append, syncAll]
    split <;> exact ih _

theorem syncAll_cons_handled (w : World) (p : GoString) (s : State) :
    (syncAll w [p] s).HANDLED_FILES = (syncFile w s p).1.HANDLED_FILES ∧
    (syncAll w [p] s).fs = (syncFile w s p).1.fs := by
  simp only [syncAll]
  split
  · rename_i s1 h; rw [h]; exact ⟨rfl, rfl⟩
  · rename_i s1 e h; rw [h]; exact ⟨rfl, rfl⟩

/-- C2, amended: after the loop of `syncRepo` a path is in `HANDLED_FILES` exactly
when it was there before the loop (never, at the start of a run) or it is the target
path of a visited entry that `NewRepositoryFile` resolved, in the state the loop had
reached, and that is not one of `IGNORED_DIRS`: whatever `Exists` and `Sync` gave. -/
theorem handled_after_syncAll (w : World) (paths : List GoString) (s : State)
    (t : GoString) :
    t ∈ (syncAll w paths s).HANDLED_FILES ↔
      t ∈ s.HANDLED_FILES ∨
        ∃ pre p post rf, paths = pre ++ p :: post ∧
          NewRepositoryFile w (syncAll w pre s).fs p = Except.ok rf ∧
          rf.FSPath = t ∧ t ∉ w.IGNORED_DIRS := by
  induction paths using List.reverseRecOn with
  | nil =>
    simp only [syncAll]
    constructor
    · intro h; exact Or.inl h
    · rintro (h | ⟨pre, p, post, rf, h, -⟩)
      · exact h
      · simp at h
  | append_singleton front p ih =>
    rw [syncAll_append, (syncAll_cons_handled w p _).1, syncFile_handled, ih]
    constructor
    · rintro ((h | ⟨pre, q, post, rf, h1, h2, h3, h4⟩) | ⟨rf, h2, h3, h4⟩)
      · exact Or.inl h
      · exact Or.inr ⟨pre, q, post ++ [p], rf, by rw [h1]; simp, h2, h3, h4⟩
      · exact Or.inr ⟨front, p, [], rf, rfl, h2, h3, h4⟩
    · rintro (h | ⟨pre, q, post, rf, h1, h2, h3, h4⟩)
      · exact Or.inl (Or.inl h)
      · rcases List.eq_nil_or_concat post with hp | ⟨post2, x, hp⟩
        · subst hp
          have := List.append_inj_left' h1 rfl
          have hx := List.append_inj_right' h1 rfl
          cases hx
          subst this
          exact Or.inr ⟨rf, h2, h3, h4⟩
        · subst hp
          have h5 : front ++ [p] = (pre ++ q :: post2) ++ [x] := by rw [h1]; simp
          have := List.append_inj_left' h5 rfl
          exact Or.inl (Or.inr ⟨pre, q, post2, rf, this, h2, h3, h4⟩)


/-- C2 as stated fails: the directory `etc` of the source tree is visited and
resolved to the target path `/etc`, which is one of `IGNORED_DIRS`, and `/etc` is
not in `HANDLED_FILES` after the loop. -/
theorem handled_iff_visited_counterexample :
    etcPath ∈ [etcPath] ∧
    (NewRepositoryFile demoWorld hostDirs etcPath).map (fun rf => rf.FSPath) =
      Except.ok "/etc".toList ∧
    "/etc".toList ∉ (syncAll demoWorld [etcPath] (freshState hostDirs)).HANDLED_FILES := by
  decide

/-! ### C3 and C7: `removeDeleted`, with and without DRYRUN -/

theorem joinElems_cons (c : GoString) (rest : List GoString) (h : rest ≠ []) :
    joinElems (c :: rest) = c ++ '/' :: joinElems rest := by
  cases rest with
  | nil => exact absurd rfl h
  | cons d r => rfl

theorem removeDeleted_err (w : World) (s : State) :
    (removeDeleted w s).1.err = s.err := by
  unfold removeDeleted
  split
  · split <;> rfl
  · split
    · rfl
    · split
      · rfl
      · simp only
        split
        · rfl
        · rfl

theorem removeDeleted_handled (w : World) (s : State) :
    (removeDeleted w s).1.HANDLED_FILES = s.HANDLED_FILES := by
  unfold removeDeleted
  split
  · split <;> rfl
  · split
    · rfl
    · split
      · rfl
      · simp only
        split
        · rfl
        · rfl

/-- The end of `syncRepo` writes no warning, records nothing, and returns no parse
error. -/
theorem finishRepo_keeps (w : World) (s : State) :
    (finishRepo w s).1.err = s.err ∧ (finishRepo w s).1.HANDLED_FILES = s.HANDLED_FILES ∧
      ∀ e, (finishRepo w s).2 ≠ some (Error.params e) := by
  unfold finishRepo
  have h1 := removeDeleted_err w { s with out := s.out ++ [Line.blank, Line.removing] }
  have h2 := removeDeleted_handled w { s with out := s.out ++ [Line.blank, Line.removing] }
  simp only at h1 h2 ⊢
  cases hR : removeDeleted w { s with out := s.out ++ [Line.blank, Line.removing] } with
  | mk t e =>
    rw [hR] at h1 h2
    simp only at h1 h2
    cases e with
    | some e => exact ⟨h1, h2, fun e h => by cases h⟩
    | none =>
      simp only
      split
      · split
        · exact ⟨h1, h2, fun e h => by cases h⟩
        · split
          · exact ⟨h1, h2, fun e h => by cases h⟩
          · exact ⟨h1, h2, fun e h => by cases h⟩
      · exact ⟨h1, h2, fun e h => by cases h⟩

theorem renameOver_ok {fs fs1 : FS} {tmp : Node} {dst : GoString}
    (h : renameOver fs tmp dst = Except.ok fs1) :
    ∃ q e0, locate fs false dst = Except.ok (q, e0) ∧ fs1 = fs.put q (Entry.node tmp) := by
  unfold renameOver at h
  cases hl : locate fs false dst with
  | error e => rw [hl] at h; cases h
  | ok r =>
    obtain ⟨q, e0⟩ := r
    rw [hl] at h
    refine ⟨q, e0, rfl, ?_⟩
    cases e0 with
    | fault e => cases h
    | absent => cases h; rfl
    | node n =>
      simp only at h
      split at h
      · cases h
      · cases h; rfl

/-- What `syncRepo` does to the list when it returns no error, without DRYRUN: a
regular file whose content is the text of `HANDLED_FILES` is put where
PREVIOUS_LIST leads. -/
theorem finishRepo_writes (w : World) (s r : State) (hw : w.DRYRUN = false)
    (h : finishRepo w s = (r, none)) :
    ∃ fs1 q e0, locate fs1 false w.PREVIOUS_LIST = Except.ok (q, e0) ∧
      r.fs = fs1.put q (Entry.node
        { tempNode w.proc with data := listText (w.rangeOrder 3 r.HANDLED_FILES) }) := by
  have hk := (finishRepo_keeps w s).2.1
  rw [h] at hk
  simp only at hk
  unfold finishRepo at h
  simp only at h
  have hH := removeDeleted_handled w { s with out := s.out ++ [Line.blank, Line.removing] }
  cases hR : removeDeleted w { s with out := s.out ++ [Line.blank, Line.removing] } with
  | mk s1 e =>
    rw [hR] at h hH
    simp only at hH
    cases e with
    | some e => simp at h
    | none =>
      simp only [hw, Bool.not_false, if_true] at h
      split at h
      · simp at h
      · split at h
        · simp at h
        · rename_i fs1 hren
          obtain ⟨q, e0, hq, hfs⟩ := renameOver_ok hren
          simp only [Prod.mk.injEq, and_true] at h
          subst h
          refine ⟨s1.fs, q, e0, hq, ?_⟩
          simp only
          rw [hfs, hH]

/-- C9, the failing input: with the directory-global `perms: 04755` alone the mode
of `opt/tool` is setuid rwxr-xr-x; with an override of the entry that only sets
the owner, the mode block runs again on the retained `Perms` and its `^` clears
the setuid bit. -/
theorem specific_override_clears_setuid :
    (NewRepositoryFile demoWorld globOnlyFS toolPath).map (fun rf => rf.Mode) =
      Except.ok (ModeSetuid ||| 0o755) ∧
    (NewRepositoryFile demoWorld globAndOwnFS toolPath).map
        (fun rf => (rf.Mode, rf.Owner, rf.Uid, rf.Perms)) =
      Except.ok (0o755, "svc".toList, 1000, 0o4755) := by
  decide

/-- C6, the failing input: the symlink `opt/current` is resolved with owner `svc`
(uid 1000); `Sync` creates `/opt/current` and returns no error, but it never
changes the owner of the link, which is root's, so `Exists` is false on the
result, and a second `syncFile` calls `Sync` and reports the entry again. -/
theorem sync_symlink_not_idempotent :
    NewRepositoryFile demoWorld linkFS currentPath = Except.ok currentEntry ∧
    (currentEntry.Sync demoWorld linkFS).2 = none ∧
    Lstat (currentEntry.Sync demoWorld linkFS).1 "/opt/current".toList =
      Except.ok { mode := ModeSymlink ||| 0o777, uid := 0, gid := 0, data := [],
                  target := "releases/1".toList } ∧
    currentEntry.Exists demoWorld (currentEntry.Sync demoWorld linkFS).1 = false ∧
    (syncAll demoWorld [currentPath, currentPath] (freshState linkFS)).out =
      [Line.entry currentEntry, Line.entry currentEntry] := by
  decide

/-! ### C10: the target path -/

theorem takeWhile_elem (c t : GoString) (hc : '/' ∉ c) (ht : t = [] ∨ ∃ r, t = '/' :: r) :
    (c ++ t).takeWhile (· != '/') = c ∧ (c ++ t).dropWhile (· != '/') = t := by
  have hall : ∀ a ∈ c, (a != '/') = true := by
    intro a ha
    have : a ≠ '/' := fun h => hc (h ▸ ha)
    simpa using this
  rw [List.takeWhile_append_of_pos hall, List.dropWhile_append_of_pos hall]
  rcases ht with h | ⟨r, h⟩ <;> subst h <;> simp

theorem cleanLoop_elem (c t : GoString) (hc : NormalElem c)
    (ht : t = [] ∨ ∃ r, t = '/' :: r) (fuel : Nat) (out : List Char) (dd : Nat) :
    cleanLoop true (fuel + 1) (c ++ t) out dd =
      cleanLoop true fuel t ((if out.length != 1 then out ++ ['/'] else out) ++ c) dd := by
  obtain ⟨h1, h2, h3, h4⟩ := hc
  obtain ⟨htk, hdr⟩ := takeWhile_elem c t h2 ht
  have hthead : t.head? = none ∨ t.head? = some '/' := by
    rcases ht with h | ⟨r, h⟩ <;> subst h <;> simp
  rcases c with _ | ⟨c0, cs⟩
  · exact absurd rfl h1
  · have h0 : c0 ≠ '/' := fun h => h2 (by rw [h]; exact List.mem_cons_self _ _)
    have hcond2 : (decide (c0 = '.') && ((cs ++ t).isEmpty || (cs ++ t).head? == some '/')) = false := by
      rcases cs with _ | ⟨c1, cs⟩
      · have : c0 ≠ '.' := fun h => h3 (by rw [h])
        simp [this]
      · have h1' : c1 ≠ '/' := fun h => h2 (by rw [h]; simp)
        simp [h1']
    have hcond3 : (decide (c0 = '.') && (cs ++ t).head? == some '.' &&
        ((cs ++ t).tail.isEmpty || (cs ++ t).tail.head? == some '/')) = false := by
      rcases cs with _ | ⟨c1, cs⟩
      · have : c0 ≠ '.' := fun h => h3 (by rw [h])
        simp [this]
      · rcases cs with _ | ⟨c2, cs⟩
        · by_cases hc0 : c0 = '.'
          · by_cases hc1 : c1 = '.'
            · exact absurd (by rw [hc0, hc1]) h4
            · simp [hc1]
          · simp [hc0]
        · have h2' : c2 ≠ '/' := fun h => h2 (by rw [h]; simp)
          simp [h2']
    rw [List.cons_append] at htk hdr ⊢
    rw [cleanLoop]
    simp only [h0, if_false, hcond2, hcond3, Bool.false_eq_true, htk, hdr,
      Bool.true_and, Bool.not_true, Bool.false_and, Bool.or_false]

theorem cleanLoop_elems (dd : Nat) :
    ∀ (comps : List GoString), comps ≠ [] → (∀ c ∈ comps, NormalElem c) →
      ∀ (fuel : Nat) (out : List Char), (joinElems comps).length < fuel → 1 ≤ out.length →
        cleanLoop true fuel (joinElems comps) out dd =
          (if out.length != 1 then out ++ ['/'] else out) ++ joinElems comps := by
  intro comps
  induction comps with
  | nil => intro h; exact absurd rfl h
  | cons c rest ih =>
    intro _ hall fuel out hfuel hout
    have hcn := hall c (List.mem_cons_self _ _)
    cases fuel with
    | zero => omega
    | succ fuel =>
      cases rest with
      | nil =>
        have := cleanLoop_elem c [] hcn (Or.inl rfl) fuel out dd
        rw [List.append_nil] at this
        simp only [joinElems]
        rw [this]
        cases fuel <;> simp [cleanLoop]
      | cons d rest =>
        rw [joinElems_cons c (d :: rest) (by simp)] at hfuel ⊢
        rw [cleanLoop_elem c _ hcn (Or.inr ⟨_, rfl⟩) fuel out dd]
        have hclen : 1 ≤ c.length := by
          rcases c with _ | ⟨c0, cs⟩
          · exact absurd rfl hcn.1
          · simp
        simp only [List.length_append, List.length_cons] at hfuel
        cases fuel with
        | zero => omega
        | succ fuel =>
          have hstep : cleanLoop true (fuel + 1) ('/' :: joinElems (d :: rest))
              ((if out.length != 1 then out ++ ['/'] else out) ++ c) dd =
              cleanLoop true fuel (joinElems (d :: rest))
                ((if out.length != 1 then out ++ ['/'] else out) ++ c) dd := by
            rw [cleanLoop]; simp
          rw [hstep]
          have hlen2 : ((if out.length != 1 then out ++ ['/'] else out) ++ c).length ≠ 1 := by
            simp only [List.length_append]
            split <;> simp <;> omega
          rw [ih (by simp) (fun x hx => hall x (List.mem_cons_of_mem _ hx)) fuel _
            (by omega) (by simp only [List.length_append]; omega)]
          have hb : (((if out.length != 1 then out ++ ['/'] else out) ++ c).length != 1) = true :=
            bne_iff_ne.2 hlen2
          rw [if_pos hb]
          simp only [List.append_assoc, List.singleton_append]

theorem Clean_rooted_elems (comps : List GoString) (hne : comps ≠ [])
    (hall : ∀ c ∈ comps, NormalElem c) :
    Clean ('/' :: '/' :: '/' :: joinElems comps) = '/' :: joinElems comps := by
  have h := cleanLoop_elems 1 comps hne hall ((joinElems comps).length + 2) ['/']
    (by omega) (by simp)
  unfold Clean
  simp only [List.isEmpty_cons, Bool.false_eq_true, if_false, List.head?_cons, beq_self_eq_true,
    if_true, List.tail_cons, List.length_cons]
  rw [cleanLoop]
  simp only [if_true]
  rw [cleanLoop]
  simp only [if_true]
  rw [h]
  simp


theorem extAux_slash (b : List Char) :
    ∀ (a acc : List Char), '/' ∉ a → extAux (a ++ '/' :: b) acc = extAux a acc := by
  intro a
  induction a with
  | nil => intro acc _; simp [extAux]
  | cons x a ih =>
    intro acc h
    have hx : x ≠ '/' := fun e => h (by rw [e]; exact List.mem_cons_self _ _)
    have ha : '/' ∉ a := fun e => h (List.mem_cons_of_mem _ e)
    simp only [List.cons_append, extAux, hx, if_false]
    split
    · rfl
    · exact ih _ ha

theorem extAux_shape :
    ∀ (r acc : List Char), extAux r acc = [] ∨
      ∃ pre post, r = pre ++ '.' :: post ∧ extAux r acc = '.' :: (pre.reverse ++ acc) := by
  intro r
  induction r with
  | nil => intro acc; exact Or.inl rfl
  | cons x r ih =>
    intro acc
    by_cases hs : x = '/'
    · left; simp [extAux, hs]
    · by_cases hd : x = '.'
      · right
        refine ⟨[], r, by simp [hd], ?_⟩
        subst hd
        simp [extAux]
      · rcases ih (x :: acc) with h | ⟨pre, post, h1, h2⟩
        · left; simp [extAux, hs, hd, h]
        · right
          refine ⟨x :: pre, post, by simp [h1], ?_⟩
          simp [extAux, hs, hd, h2]

theorem template_chars : ".template".toList = ['.', 't', 'e', 'm', 'p', 'l', 'a', 't', 'e'] := by
  decide

theorem Ext_template_iff (c : GoString) :
    Ext c = ".template".toList ↔ ".template".toList <:+ c := by
  rw [template_chars]
  unfold Ext
  constructor
  · intro h
    rcases extAux_shape c.reverse [] with h0 | ⟨pre, post, h1, h2⟩
    · rw [h0] at h; simp at h
    · rw [h2] at h
      simp only [List.append_nil, List.cons.injEq, true_and] at h
      have hc : c = post.reverse ++ '.' :: pre.reverse := by
        have := congrArg List.reverse h1
        simpa using this
      rw [hc, h]
      exact ⟨post.reverse, rfl⟩
  · rintro ⟨stem, rfl⟩
    simp [extAux]

theorem Ext_last (pre last : GoString) (h : '/' ∉ last) :
    Ext (pre ++ '/' :: last) = Ext last := by
  unfold Ext
  simp only [List.reverse_append, List.reverse_cons, List.append_assoc, List.singleton_append]
  exact extAux_slash _ _ _ (by simpa using h)

theorem joinElems_last (last : GoString) :
    ∀ (front : List GoString) (base : GoString),
      ∃ pre, base ++ '/' :: joinElems (front ++ [last]) = pre ++ '/' :: last := by
  intro front
  induction front with
  | nil => intro base; exact ⟨base, rfl⟩
  | cons c rest ih =>
    intro base
    obtain ⟨pre, h⟩ := ih (base ++ '/' :: c)
    refine ⟨pre, ?_⟩
    rw [← h, List.cons_append, joinElems_cons c (rest ++ [last]) (by simp)]
    simp

theorem TrimPrefix_append (base x : GoString) : TrimPrefix (base ++ x) base = x := by
  unfold TrimPrefix HasPrefix
  have : base.isPrefixOf (base ++ x) = true := by
    rw [List.isPrefixOf_iff_prefix]; exact List.prefix_append _ _
  simp [this]

theorem HasSuffix_iff (s suf : GoString) : HasSuffix s suf = true ↔ suf <:+ s := by
  unfold HasSuffix
  rw [List.isPrefixOf_iff_prefix, List.reverse_prefix]

theorem TrimSuffix_append (stem suf : GoString) : TrimSuffix (stem ++ suf) suf = stem := by
  unfold TrimSuffix
  have : HasSuffix (stem ++ suf) suf = true := (HasSuffix_iff _ _).2 ⟨stem, rfl⟩
  simp [this]

theorem TrimSuffix_of_not (s suf : GoString) (h : ¬ suf <:+ s) : TrimSuffix s suf = s := by
  unfold TrimSuffix
  have : HasSuffix s suf = false := by
    cases hx : HasSuffix s suf with
    | false => rfl
    | true => exact absurd ((HasSuffix_iff _ _).1 hx) h
  simp [this]

theorem targetOf_elems (w : World) (front : List GoString) (last : GoString)
    (hall : ∀ c ∈ front ++ [last], NormalElem c) :
    ((targetOf w (w.BASEDIR ++ '/' :: joinElems (front ++ [last]))).2 = true ↔
      ".template".toList <:+ last) ∧
    ((targetOf w (w.BASEDIR ++ '/' :: joinElems (front ++ [last]))).2 = true →
      '/' :: joinElems (front ++ [last]) =
        (targetOf w (w.BASEDIR ++ '/' :: joinElems (front ++ [last]))).1 ++ ".template".toList) ∧
    ((targetOf w (w.BASEDIR ++ '/' :: joinElems (front ++ [last]))).2 = false →
      (targetOf w (w.BASEDIR ++ '/' :: joinElems (front ++ [last]))).1 =
        '/' :: joinElems (front ++ [last])) := by
  have hlast : NormalElem last := hall last (by simp)
  obtain ⟨pre, hpre⟩ := joinElems_last last front w.BASEDIR
  obtain ⟨pre2, hpre2⟩ := joinElems_last last front []
  have hext : Ext (w.BASEDIR ++ '/' :: joinElems (front ++ [last])) = Ext last := by
    rw [hpre]; exact Ext_last pre last hlast.2.1
  have hjoin : Join [['/'], TrimPrefix (w.BASEDIR ++ '/' :: joinElems (front ++ [last])) w.BASEDIR]
      = '/' :: joinElems (front ++ [last]) := by
    rw [TrimPrefix_append]
    have : Join [['/'], '/' :: joinElems (front ++ [last])] =
        Clean ('/' :: '/' :: '/' :: joinElems (front ++ [last])) := by
      simp [Join, List.intercalate, List.intersperse]
    rw [this]
    exact Clean_rooted_elems _ (by simp) hall
  by_cases ht : Ext last = ".template".toList
  · have hsuf := (Ext_template_iff last).1 ht
    obtain ⟨stem, hstem⟩ := hsuf
    have hfull : '/' :: joinElems (front ++ [last]) = (pre2 ++ '/' :: stem) ++ ".template".toList := by
      have := hpre2
      simp only [List.nil_append] at this
      rw [this, ← hstem]
      simp
    have htar : targetOf w (w.BASEDIR ++ '/' :: joinElems (front ++ [last])) =
        (pre2 ++ '/' :: stem, true) := by
      unfold targetOf
      simp only [hext, hjoin, ht, if_true]
      rw [hfull, TrimSuffix_append]
    rw [htar]
    exact ⟨⟨fun _ => ⟨stem, hstem⟩, fun _ => rfl⟩, fun _ => hfull, fun h => Bool.noConfusion h⟩
  · have hns : ¬ ".template".toList <:+ last := fun h => ht ((Ext_template_iff last).2 h)
    have htar : targetOf w (w.BASEDIR ++ '/' :: joinElems (front ++ [last])) =
        ('/' :: joinElems (front ++ [last]), false) := by
      unfold targetOf
      simp only [hext, hjoin, ht, if_false]
    rw [htar]
    exact ⟨⟨fun h => Bool.noConfusion h, fun h => absurd h hns⟩, fun h => Bool.noConfusion h,
      fun _ => rfl⟩

theorem applyParams_target (w : World) (fs : FS) (pf : GoString) (f g : RepositoryFile)
    (h : applyParams w fs pf f = Except.ok g) :
    g.FSPath = f.FSPath ∧ g.IsTemplate = f.IsTemplate ∧ g.Path = f.Path := by
  unfold applyParams at h
  split at h
  · cases h; exact ⟨rfl, rfl, rfl⟩
  · split at h
    · cases h
    · simp only at h
      split at h <;> (cases h; exact ⟨rfl, rfl, rfl⟩)

theorem lookupOwner_target (w : World) (f g : RepositoryFile)
    (h : lookupOwner w f = Except.ok g) :
    g.FSPath = f.FSPath ∧ g.IsTemplate = f.IsTemplate ∧ g.Path = f.Path := by
  unfold lookupOwner at h
  split at h
  · split at h
    · cases h; exact ⟨rfl, rfl, rfl⟩
    · cases h
  · cases h; exact ⟨rfl, rfl, rfl⟩

theorem lookupGroup_target (w : World) (f g : RepositoryFile)
    (h : lookupGroup w f = Except.ok g) :
    g.FSPath = f.FSPath ∧ g.IsTemplate = f.IsTemplate ∧ g.Path = f.Path := by
  unfold lookupGroup at h
  split at h
  · split at h
    · cases h; exact ⟨rfl, rfl, rfl⟩
    · cases h
  · cases h; exact ⟨rfl, rfl, rfl⟩

theorem NewRepositoryFile_target (w : World) (fs : FS) (p : GoString) (rf : RepositoryFile)
    (h : NewRepositoryFile w fs p = Except.ok rf) :
    rf.FSPath = (targetOf w p).1 ∧ rf.IsTemplate = (targetOf w p).2 ∧ rf.Path = p := by
  unfold NewRepositoryFile at h
  simp only at h
  split at h
  · cases h
  · rename_i fi _
    split at h
    · cases h
    · rename_i f1 hg
      split at h
      · cases h
      · rename_i f2 ha
        split at h
        · cases h
        · rename_i f3 ho
          have e3 := lookupGroup_target w f3 rf h
          have e2 := lookupOwner_target w f2 f3 ho
          have e1 := applyParams_target w fs _ f1 f2 ha
          have e0 : f1.FSPath = (targetOf w p).1 ∧ f1.IsTemplate = (targetOf w p).2 ∧
              f1.Path = p := by
            split at hg
            · have := applyParams_target w fs _ _ f1 hg
              exact this
            · cases hg; exact ⟨rfl, rfl, rfl⟩
          refine ⟨?_, ?_, ?_⟩
          · rw [e3.1, e2.1, e1.1, e0.1]
          · rw [e3.2.1, e2.2.1, e1.2.1, e0.2.1]
          · rw [e3.2.2, e2.2.2, e1.2.2, e0.2.2]


/-- C10: for a source path BASEDIR + "/" + rel, where rel is the path of an entry
of the source tree as the traversal builds it (one or more names of directory
entries joined by slashes: each of them not empty, without a slash, and neither `.`
nor `..`), `NewRepositoryFile` sets `IsTemplate` exactly when the final element
ends with `.template`; `FSPath` is then "/" + rel without that one suffix, and
"/" + rel otherwise. -/
theorem newRepositoryFile_paths (w : World) (fs : FS) (front : List GoString)
    (last : GoString) (rf : RepositoryFile)
    (hall : ∀ c ∈ front ++ [last], NormalElem c)
    (hN : NewRepositoryFile w fs (w.BASEDIR ++ '/' :: joinElems (front ++ [last])) =
      Except.ok rf) :
    (rf.IsTemplate = true ↔ ".template".toList <:+ last) ∧
    (rf.IsTemplate = true →
      '/' :: joinElems (front ++ [last]) = rf.FSPath ++ ".template".toList) ∧
    (rf.IsTemplate = false → rf.FSPath = '/' :: joinElems (front ++ [last])) := by
  obtain ⟨h1, h2, -⟩ := NewRepositoryFile_target w fs _ rf hN
  rw [h1, h2]
  exact targetOf_elems w front last hall

/-- The template `etc/motd.template` is resolved to the target `/etc/motd`. -/
theorem newRepositoryFile_paths_witness :
    (∀ c ∈ ["etc".toList] ++ ["motd.template".toList], NormalElem c) ∧
    NewRepositoryFile demoWorld templateFS
        (demoWorld.BASEDIR ++ '/' :: joinElems (["etc".toList] ++ ["motd.template".toList])) =
      Except.ok { motdTemplate with Mode := 0o644 } ∧
    '/' :: joinElems (["etc".toList] ++ ["motd.template".toList]) =
      "/etc/motd".toList ++ ".template".toList :=
  ⟨by decide, by decide,
    (newRepositoryFile_paths demoWorld templateFS ["etc".toList] "motd.template".toList
      { motdTemplate with Mode := 0o644 } (by decide) (by decide)).2.1 rfl⟩

/-! ### C11: the text of the manifest -/

theorem splitLines_line (rest : List Char) :
    ∀ (k cur : List Char), '\n' ∉ k →
      splitLines (k ++ '\n' :: rest) cur = (cur.reverse ++ k) :: splitLines rest [] := by
  intro k
  induction k with
  | nil => intro cur _; simp [splitLines]
  | cons c k ih =>
    intro cur h
    have hc : c ≠ '\n' := fun e => h (by rw [e]; exact List.mem_cons_self _ _)
    have hk : '\n' ∉ k := fun e => h (List.mem_cons_of_mem _ e)
    rw [List.cons_append, splitLines]
    simp only [hc, if_false]
    rw [ih (c :: cur) hk]
    simp

theorem splitLines_listText :
    ∀ (ks : List GoString), (∀ k ∈ ks, '\n' ∉ k) → splitLines (listText ks) [] = ks := by
  intro ks
  induction ks with
  | nil => intro _; rfl
  | cons k rest ih =>
    intro h
    simp only [listText]
    rw [splitLines_line _ k [] (h k (List.mem_cons_self _ _)),
      ih (fun x hx => h x (List.mem_cons_of_mem _ hx))]
    simp

theorem dropCR_of_not (k : GoString) (h : k.getLast? ≠ some '\r') : dropCR k = k := by
  unfold dropCR
  have : (k.getLast? == some '\r') = false := by
    cases hx : (k.getLast? == some '\r') with
    | false => rfl
    | true => exact absurd (by simpa using hx) h
  simp [this]

theorem mem_readPrevHandled :
    ∀ (lines : List GoString) (acc : StringSet) (p : GoString),
      p ∈ readPrevHandled lines acc ↔ p ∈ acc ∨ (p ∈ lines ∧ TrimSpace p ≠ []) := by
  intro lines
  induction lines with
  | nil => intro acc p; simp [readPrevHandled]
  | cons l rest ih =>
    intro acc p
    unfold readPrevHandled
    by_cases hl : TrimSpace l = []
    · simp only [hl, if_true]
      rw [ih]
      constructor
      · rintro (h | ⟨h1, h2⟩)
        · exact Or.inl h
        · exact Or.inr ⟨List.mem_cons_of_mem _ h1, h2⟩
      · rintro (h | ⟨h1, h2⟩)
        · exact Or.inl h
        · rcases List.mem_cons.1 h1 with e | e
          · subst e; exact absurd hl h2
          · exact Or.inr ⟨e, h2⟩
    · simp only [hl, if_false]
      rw [ih, StringSet.mem_Add]
      constructor
      · rintro ((h | h) | ⟨h1, h2⟩)
        · exact Or.inl h
        · subst h; exact Or.inr ⟨List.mem_cons_self _ _, hl⟩
        · exact Or.inr ⟨List.mem_cons_of_mem _ h1, h2⟩
      · rintro (h | ⟨h1, h2⟩)
        · exact Or.inl (Or.inl h)
        · rcases List.mem_cons.1 h1 with e | e
          · exact Or.inl (Or.inr e)
          · exact Or.inr ⟨e, h2⟩

theorem scanLines_listText (ks : List GoString)
    (hnl : ∀ k ∈ ks, '\n' ∉ k) (hcr : ∀ k ∈ ks, k.getLast? ≠ some '\r')
    (hlen : ∀ k ∈ ks, utf8Len k < MaxScanTokenSize) :
    scanLines (listText ks) = Except.ok ks := by
  unfold scanLines
  rw [splitLines_listText ks hnl]
  have hany : (ks.any fun l => decide (utf8Len l ≥ MaxScanTokenSize)) = false := by
    rw [List.any_eq_false]
    intro k hk
    have := hlen k hk
    simp only [decide_eq_true_eq]
    omega
  simp only [hany, Bool.false_eq_true, if_false]
  congr 1
  have : ∀ (l : List GoString), (∀ k ∈ l, k.getLast? ≠ some '\r') → l.map dropCR = l := by
    intro l
    induction l with
    | nil => intro _; rfl
    | cons a l ih =>
      intro h
      rw [List.map_cons, dropCR_of_not a (h a (List.mem_cons_self _ _)),
        ih (fun x hx => h x (List.mem_cons_of_mem _ hx))]
  exact this ks hcr


theorem TrimSpace_rooted (k : GoString) (h : k.head? = some '/') : TrimSpace k ≠ [] := by
  rcases k with _ | ⟨c, x⟩
  · simp at h
  · simp only [List.head?_cons, Option.some.injEq] at h
    subst h
    intro hT
    unfold TrimSpace at hT
    have h1 : ('/' :: x).dropWhile IsSpace = '/' :: x := by
      rw [List.dropWhile_cons_of_neg]; decide
    rw [h1, List.reverse_eq_nil_iff, List.dropWhile_eq_nil_iff] at hT
    have := hT '/' (by simp)
    revert this
    decide

/-- C11, amended: for every current manifest whose paths are target paths (they
start with a slash) that hold no newline, do not end in a carriage return and are
shorter than the buffer of the scanner (64 KiB, in bytes), the text `syncRepo`
writes is the text of the manifest in the order of its `range`, and that text,
written in any order of the paths, is read back by `removeDeleted` as exactly the
set of the paths; a blank line adds nothing. -/
theorem manifest_roundtrip (ks : StringSet)
    (hroot : ∀ k ∈ ks, k.head? = some '/')
    (hnl : ∀ k ∈ ks, '\n' ∉ k) (hcr : ∀ k ∈ ks, k.getLast? ≠ some '\r')
    (hlen : ∀ k ∈ ks, utf8Len k < MaxScanTokenSize) :
    (∀ (w : World) (s r : State), w.DRYRUN = false → s.HANDLED_FILES = ks →
      finishRepo w s = (r, none) →
      ∃ fs1 q e0, locate fs1 false w.PREVIOUS_LIST = Except.ok (q, e0) ∧
        r.fs = fs1.put q (Entry.node
          { tempNode w.proc with data := listText (w.rangeOrder 3 ks) })) ∧
    (∀ order : StringSet, order.Perm ks →
      ∃ lines, scanLines (listText order) = Except.ok lines ∧
        ∀ p, p ∈ readPrevHandled lines [] ↔ p ∈ ks) ∧
    (∀ (pre post : List GoString) (b p : GoString), TrimSpace b = [] →
      (p ∈ readPrevHandled (pre ++ b :: post) [] ↔ p ∈ readPrevHandled (pre ++ post) [])) := by
  refine ⟨?_, ?_, ?_⟩
  · intro w s r hw hs hfin
    have hk := (finishRepo_keeps w s).2.1
    rw [hfin] at hk
    simp only at hk
    rw [← hs, ← hk]
    exact finishRepo_writes w s r hw hfin
  · intro order hperm
    have hm : ∀ k, k ∈ order ↔ k ∈ ks := fun k => hperm.mem_iff
    refine ⟨order, scanLines_listText order (fun k hk => hnl k ((hm k).1 hk))
      (fun k hk => hcr k ((hm k).1 hk)) (fun k hk => hlen k ((hm k).1 hk)), ?_⟩
    intro p
    rw [mem_readPrevHandled]
    constructor
    · rintro (h | ⟨h, -⟩)
      · simp at h
      · exact (hm p).1 h
    · intro h
      exact Or.inr ⟨(hm p).2 h, TrimSpace_rooted p (hroot p h)⟩
  · intro pre post b p hb
    rw [mem_readPrevHandled, mem_readPrevHandled]
    constructor
    · rintro (h | ⟨h1, h2⟩)
      · exact Or.inl h
      · rcases List.mem_append.1 h1 with e | e
        · exact Or.inr ⟨List.mem_append_left _ e, h2⟩
        · rcases List.mem_cons.1 e with e2 | e2
          · subst e2; exact absurd hb h2
          · exact Or.inr ⟨List.mem_append_right _ e2, h2⟩
    · rintro (h | ⟨h1, h2⟩)
      · exact Or.inl h
      · rcases List.mem_append.1 h1 with e | e
        · exact Or.inr ⟨List.mem_append_left _ e, h2⟩
        · exact Or.inr ⟨List.mem_append_right _ (List.mem_cons_of_mem _ e), h2⟩

/-- The manifest of `/etc/motd` and `/etc/app.conf` is read back as it is. -/
theorem manifest_roundtrip_witness :
    (∀ k ∈ ["/etc/motd".toList, "/etc/app.conf".toList], k.head? = some '/') ∧
    scanLines (listText ["/etc/app.conf".toList, "/etc/motd".toList]) =
      Except.ok ["/etc/app.conf".toList, "/etc/motd".toList] ∧
    "/etc/motd".toList ∈
      readPrevHandled ["/etc/app.conf".toList, "/etc/motd".toList] [] :=
  ⟨by decide, by decide,
    ((manifest_roundtrip ["/etc/motd".toList, "/etc/app.conf".toList] (by decide) (by decide)
      (by decide) (by decide)).2.1 ["/etc/app.conf".toList, "/etc/motd".toList]
      (List.Perm.swap _ _ _)).elim
      (fun lines h => by
        have e : lines = ["/etc/app.conf".toList, "/etc/motd".toList] := by
          have h1 := h.1
          have h2 : scanLines (listText ["/etc/app.conf".toList, "/etc/motd".toList]) =
              Except.ok ["/etc/app.conf".toList, "/etc/motd".toList] := by decide
          rw [h2] at h1
          exact (Except.ok.inj h1).symm
        rw [← e]
        exact (h.2 _).2 (by decide))⟩

/-- C11 as stated fails: the target path of a file whose name holds a newline is
read back as two paths, and the target path of a file whose name ends in a
carriage return is read back without it. -/
theorem manifest_roundtrip_counterexample :
    (scanLines (listText ["/opt/a\nb".toList])).map (fun lines => readPrevHandled lines []) =
      Except.ok ["/opt/a".toList, "b".toList] ∧
    "/opt/a\nb".toList ∉ ["/opt/a".toList, "b".toList] ∧
    (scanLines (listText ["/etc/motd\r".toList])).map (fun lines => readPrevHandled lines []) =
      Except.ok ["/etc/motd".toList] ∧
    "/etc/motd\r".toList ∉ ["/etc/motd".toList] := by
  decide


/-! ### C12: the lookups of owner and group -/

/-- C13, the failing input: the directory `tmp` has the native mode drwxrwxrwt and
the single override `perms: 01777`, whose bit 9 asks for the sticky bit; the `^` of
`NewRepositoryFile` meets the sticky bit that `&^ os.ModePerm` has left in the
mode and clears it: the resolved mode is drwxrwxrwx. -/
theorem override_clears_native_sticky :
    Lstat stickyFS tmpPath = Except.ok
      { mode := ModeDir ||| ModeSticky ||| 0o777, uid := 0, gid := 0, data := [],
        target := [] } ∧
    (0o1777 : Nat) &&& StickyBit ≠ 0 ∧
    (NewRepositoryFile stickyWorld stickyFS tmpPath).map (fun rf => (rf.Perms, rf.Mode)) =
      Except.ok (0o1777, ModeDir ||| 0o777) ∧
    (ModeDir ||| 0o777) &&& ModeSticky = 0 := by
  decide


end Keeper
